import Mathlib

set_option linter.unusedVariables false

/- Shallow embedding of the decision engine of the 3D-snake bot
   (decision_maker.py over the data model of game_state.py).
   Python ints are modelled as Int, direction lists [dx, dy, dz] as
   List Int, Python sets of coordinate triples as Finset Point3D, and
   the dicts of the A* search as functions into Option. -/

/-- Point3D from game_state.py; it also stands for the (x, y, z) tuples
used as A* nodes in decision_maker.py (the code converts between the two
componentwise, so the embedding identifies them). -/
structure Point3D where
  x : Int
  y : Int
  z : Int
deriving DecidableEq, Repr

/-- map_size is a Python list [sx, sy, sz] accessed at indices 0, 1, 2;
its three entries are named here. -/
structure MapSize where
  sx : Int
  sy : Int
  sz : Int
deriving DecidableEq, Repr

/-- Strategy enum from game_state.py (its only members are BASIC and
ADVANCED). -/
inductive Strategy where
  | BASIC
  | ADVANCED
deriving DecidableEq, Repr

/-- Snake from game_state.py. -/
structure Snake where
  id : String
  direction : List Int
  old_direction : List Int
  geometry : List Point3D
  death_count : Int
  status : String
  revive_remain_ms : Int

/-- Enemy from game_state.py. -/
structure Enemy where
  geometry : List Point3D
  status : String
  kills : Int

/-- Food from game_state.py. -/
structure Food where
  c : Point3D
  points : Int
deriving DecidableEq, Repr

/-- GameState from game_state.py. -/
structure GameState where
  map_size : MapSize
  name : String
  points : Int
  fences : List Point3D
  snakes : List Snake
  enemies : List Enemy
  food : List Food
  turn : Int
  tick_remain_ms : Int
  revive_timeout_sec : Int
  errors : List String

/-- DecisionMaker.manhattan_distance (and DecisionMaker.heuristic, which
is the same computation on tuples). -/
def manhattanDistance (a b : Point3D) : Nat :=
  (a.x - b.x).natAbs + (a.y - b.y).natAbs + (a.z - b.z).natAbs

/-- The fixed direction list [+x, -x, +y, -y, +z, -z] that appears in
get_safe_directions, safe_move, random_move and (as tuples) in
get_neighbors. -/
def possibleDirections : List (List Int) :=
  [[1, 0, 0], [-1, 0, 0], [0, 1, 0], [0, -1, 0], [0, 0, 1], [0, 0, -1]]

/-- The bounds check 0 <= c < map_size[i] done per axis throughout the
code. -/
def inBounds (p : Point3D) (ms : MapSize) : Bool :=
  (0 ≤ p.x && p.x < ms.sx) && (0 ≤ p.y && p.y < ms.sy) && (0 ≤ p.z && p.z < ms.sz)

/-- Landing cell of a direction list [dx, dy, dz] applied to a point
(head.x + direction[0], ...). -/
def addDir (p : Point3D) (d : List Int) : Point3D :=
  ⟨p.x + d.getD 0 0, p.y + d.getD 1 0, p.z + d.getD 2 0⟩

/-- DecisionMaker.get_neighbors: the six axis-aligned unit moves from
node, in the fixed order +x, -x, +y, -y, +z, -z, filtered to the map
bounds. -/
def getNeighbors (node : Point3D) (ms : MapSize) : List Point3D :=
  (possibleDirections.map (fun d => addDir node d)).filter (fun n => inBounds n ms)

/-- DecisionMaker.find_closest_food: food of minimal Manhattan distance;
only a strictly smaller distance replaces the best so far, so the first
food at the minimal distance wins. -/
def findClosestFood (head : Point3D) (foodList : List Food) : Option Food :=
  foodList.foldl
    (fun acc food =>
      match acc with
      | none => some food
      | some best =>
        if manhattanDistance head food.c < manhattanDistance head best.c then some food
        else acc)
    none

/-- DecisionMaker.find_food_within_radius: the food entries whose
Manhattan distance from the head is at most the radius, in list order. -/
def findFoodWithinRadius (head : Point3D) (foodList : List Food) (radius : Nat) : List Food :=
  foodList.filter (fun food => manhattanDistance head food.c ≤ radius)

/-- DecisionMaker.get_obstacles_within_radius: fences, every enemy
segment and every snake segment within the radius (the my_snake argument
is unused in the source as well; enemy status is never consulted). -/
def getObstaclesWithinRadius (gs : GameState) (my : Snake) (head : Point3D)
    (radius : Nat) : Finset Point3D :=
  ((gs.fences.filter (fun f => manhattanDistance head f ≤ radius))
    ++ gs.enemies.flatMap (fun e => e.geometry.filter (fun p => manhattanDistance head p ≤ radius))
    ++ gs.snakes.flatMap (fun s => s.geometry.filter (fun p => manhattanDistance head p ≤ radius))).toFinset

/-- DecisionMaker.get_safe_directions: obstacles are all fences, all
enemy segments and all snake segments (no radius cut); result is the
sublist of the six unit directions whose landing cell is in bounds and
not an obstacle, in the fixed order. -/
def getSafeDirections (gs : GameState) (my : Snake) : List (List Int) :=
  let head := my.geometry.headD ⟨0, 0, 0⟩
  let obstacles : Finset Point3D :=
    (gs.fences ++ gs.enemies.flatMap (fun e => e.geometry)
      ++ gs.snakes.flatMap (fun s => s.geometry)).toFinset
  possibleDirections.filter (fun d =>
    inBounds (addDir head d) gs.map_size && decide (addDir head d ∉ obstacles))

/-- DecisionMaker.get_direction_vector: each axis is set independently to
1 or -1 according to the sign of target - head on that axis (every
differing axis is set, there is no priority between axes). -/
def getDirectionVector (head target : Point3D) : List Int :=
  let dx : Int := if head.x < target.x then 1 else if target.x < head.x then -1 else 0
  let dy : Int := if head.y < target.y then 1 else if target.y < head.y then -1 else 0
  let dz : Int := if head.z < target.z then 1 else if target.z < head.z then -1 else 0
  [dx, dy, dz]

/-- DecisionMaker.get_alternative_directions: the safe directions sorted
(stably, like Python sorted) by the Manhattan distance from the landing
cell to the target. -/
def getAlternativeDirections (head target : Point3D)
    (safeDirections : List (List Int)) : List (List Int) :=
  safeDirections.mergeSort (fun d1 d2 =>
    decide (manhattanDistance (addDir head d1) target ≤ manhattanDistance (addDir head d2) target))

/-- DecisionMaker.get_direction_from_path: [0, 0, 0] when the path has
fewer than two cells; otherwise the componentwise difference
path[1] - head, each component normalised by int(d / max(abs(d), 1))
(the identity on -1, 0, 1). -/
def getDirectionFromPath (head : Point3D) (path : List Point3D) : List Int :=
  if path.length < 2 then [0, 0, 0]
  else
    let next := path.getD 1 head
    [next.x - head.x, next.y - head.y, next.z - head.z].map
      (fun d => d / max (Int.ofNat d.natAbs) 1)

/-- DecisionMaker.basic_strategy (writes to the visualization overlay are
side effects on an external object and are dropped). -/
def basicStrategy (gs : GameState) (my : Snake) : List Int :=
  let head := my.geometry.headD ⟨0, 0, 0⟩
  match findClosestFood head gs.food with
  | none => my.direction
  | some target =>
    let desired := getDirectionVector head target.c
    let safe := getSafeDirections gs my
    if desired ∈ safe then desired
    else
      match getAlternativeDirections head target.c safe with
      | a :: _ => a
      | [] =>
        match safe with
        | s :: _ => s
        | [] => my.direction

/-- heapq stores tuples (f, (x, y, z)); Python compares tuples
lexicographically, so the heap always pops a least entry in this total
order. -/
def entryLe (a b : Nat × Point3D) : Bool :=
  decide (a.1 < b.1 ∨ (a.1 = b.1 ∧ (a.2.x < b.2.x ∨ (a.2.x = b.2.x ∧
    (a.2.y < b.2.y ∨ (a.2.y = b.2.y ∧ a.2.z ≤ b.2.z))))))

/-- One comparison step of the minimum scan over the open set. -/
def minStep (acc : Option (Nat × Point3D)) (e : Nat × Point3D) :
    Option (Nat × Point3D) :=
  match acc with
  | none => some e
  | some m => if entryLe m e then acc else some e

/-- The least entry of the open set (what heapq.heappop returns). -/
def findMinEntry (l : List (Nat × Point3D)) : Option (Nat × Point3D) :=
  l.foldl minStep none

/-- heapq.heappop on the open set: the least entry together with the
remaining entries. -/
def popMin (l : List (Nat × Point3D)) :
    Option ((Nat × Point3D) × List (Nat × Point3D)) :=
  match findMinEntry l with
  | none => none
  | some m => some (m, l.erase m)

/-- The mutable state of DecisionMaker.a_star: the open set (heap), the
came_from dict and the g_score dict. The f_score dict of the source is
write-only (never read), so it is not modelled. -/
structure AStarState where
  openSet : List (Nat × Point3D)
  cameFrom : Point3D → Option (Option Point3D)
  gScore : Point3D → Option Nat

/-- Dict update came_from[n] = v. -/
def setParent (cf : Point3D → Option (Option Point3D)) (n : Point3D) (v : Option Point3D) :
    Point3D → Option (Option Point3D) :=
  fun m => if m = n then some v else cf m

/-- Dict update g_score[n] = v. -/
def setG (g : Point3D → Option Nat) (n : Point3D) (v : Nat) : Point3D → Option Nat :=
  fun m => if m = n then some v else g m

/-- Body of the neighbor loop of DecisionMaker.a_star: skip obstacles,
relax when the tentative g is new or strictly smaller, and push
(f, neighbor) when the tentative g is within the depth cap. -/
def relaxNeighbor (goal : Point3D) (obstacles : Finset Point3D) (maxDepth : Nat)
    (current : Point3D) (gcur : Nat) (st : AStarState) (nb : Point3D) : AStarState :=
  if nb ∈ obstacles then st
  else
    let tentative := gcur + 1
    let improves :=
      match st.gScore nb with
      | none => true
      | some old => decide (tentative < old)
    if improves then
      let st1 : AStarState :=
        { st with
          cameFrom := setParent st.cameFrom nb (some current)
          gScore := setG st.gScore nb tentative }
      if tentative ≤ maxDepth then
        { st1 with openSet := (tentative + manhattanDistance nb goal, nb) :: st1.openSet }
      else st1
    else st

/-- The whole neighbor loop of one expansion of a_star. -/
def expandNode (goal : Point3D) (obstacles : Finset Point3D) (ms : MapSize) (maxDepth : Nat)
    (current : Point3D) (gcur : Nat) (st : AStarState) : AStarState :=
  (getNeighbors current ms).foldl (relaxNeighbor goal obstacles maxDepth current gcur) st

/-- DecisionMaker.reconstruct_path: walk came_from back to the start and
return the reversed walk; written as fuelled recursion that prepends
toward the start (the search invariants bound the walk length by the
g_score of the end node, which the caller passes as fuel). -/
def reconstructPath (cf : Point3D → Option (Option Point3D)) : Nat → Point3D → List Point3D
  | 0, cur => [cur]
  | fuel + 1, cur =>
    match cf cur with
    | some (some prev) => reconstructPath cf fuel prev ++ [cur]
    | _ => [cur]

/-- The while loop of DecisionMaker.a_star, with explicit fuel (one unit
per iteration; a sufficient amount is proved below). Result: none when
the fuel runs out, some none when the open set empties without reaching
the goal ("no path"), some (some path) on success. Reading g_score of a
popped node cannot fail (queued nodes always carry a g_score), so the
impossible dict-miss branch answers some none. -/
def aStarLoop (goal : Point3D) (obstacles : Finset Point3D) (ms : MapSize) (maxDepth : Nat) :
    Nat → AStarState → Option (Option (List Point3D))
  | 0, _ => none
  | fuel + 1, st =>
    match popMin st.openSet with
    | none => some none
    | some (e, rest) =>
      let current := e.2
      match st.gScore current with
      | none => some none
      | some gcur =>
        if current = goal then some (some (reconstructPath st.cameFrom gcur current))
        else if maxDepth ≤ gcur then
          aStarLoop goal obstacles ms maxDepth fuel { st with openSet := rest }
        else
          aStarLoop goal obstacles ms maxDepth fuel
            (expandNode goal obstacles ms maxDepth current gcur { st with openSet := rest })

/-- The initial a_star state: open set [(0, start)], came_from
{start: None}, g_score {start: 0}. -/
def aStarInit (start : Point3D) : AStarState :=
  { openSet := [(0, start)]
    cameFrom := fun m => if m = start then some none else none
    gScore := fun m => if m = start then some 0 else none }

/-- Number of in-bounds cells of the map. -/
def numCells (ms : MapSize) : Nat := ms.sx.toNat * ms.sy.toNat * ms.sz.toNat

/-- Fuel that provably outlasts the loop (each iteration strictly
decreases open-set length plus the summed g_score slack). -/
def aStarFuel (ms : MapSize) (maxDepth : Nat) : Nat := (numCells ms + 2) * (maxDepth + 2)

/-- DecisionMaker.a_star. -/
def aStar (start goal : Point3D) (obstacles : Finset Point3D) (ms : MapSize)
    (maxDepth : Nat) : Option (List Point3D) :=
  match aStarLoop goal obstacles ms maxDepth (aStarFuel ms maxDepth) (aStarInit start) with
  | some r => r
  | none => none

/-- The mutable per-engine state of DecisionMaker (constructor
arguments plus current_target and steps_since_target_change). -/
structure DecisionMakerState where
  strategy : Strategy
  max_search_depth : Nat
  target_change_interval : Nat
  current_target : Option Food
  steps_since_target_change : Nat

/-- DecisionMaker.__init__: no target yet, and the dwell counter starts
at target_change_interval so that a target may be chosen immediately. -/
def mkDecisionMaker (strategy : Strategy) (maxSearchDepth : Nat)
    (targetChangeInterval : Nat) : DecisionMakerState :=
  { strategy := strategy
    max_search_depth := maxSearchDepth
    target_change_interval := targetChangeInterval
    current_target := none
    steps_since_target_change := targetChangeInterval }

/-- DecisionMaker.select_new_target: candidates sorted (stably) by
Manhattan distance; the first one a_star can reach is returned with its
path. -/
def selectNewTarget (head : Point3D) (availableFood : List Food)
    (obstacles : Finset Point3D) (ms : MapSize) (maxDepth : Nat) :
    Option (Food × List Point3D) :=
  let sortedFood := availableFood.mergeSort (fun f1 f2 =>
    decide (manhattanDistance head f1.c ≤ manhattanDistance head f2.c))
  sortedFood.findSome? (fun food =>
    match aStar head food.c obstacles ms maxDepth with
    | some path => some (food, path)
    | none => none)

/-- The shared tail of advanced_strategy: pick a random safe direction
(random.choice is modelled by the oracle choose), else keep the current
direction. -/
def advancedFallback (choose : List (List Int) → List Int)
    (st : DecisionMakerState) (gs : GameState) (my : Snake) :
    List Int × DecisionMakerState :=
  let safe := getSafeDirections gs my
  if safe.isEmpty then (my.direction, st) else (choose safe, st)

/-- DecisionMaker.advanced_strategy (visualization writes dropped;
random.choice modelled by the oracle choose). Returns the decided
direction together with the updated engine state. -/
def advancedStrategy (choose : List (List Int) → List Int)
    (st : DecisionMakerState) (gs : GameState) (my : Snake) :
    List Int × DecisionMakerState :=
  let head := my.geometry.headD ⟨0, 0, 0⟩
  let ms := gs.map_size
  let obstacles := getObstaclesWithinRadius gs my head st.max_search_depth
  let availableFood := findFoodWithinRadius head gs.food st.max_search_depth
  let needNewTarget : Bool :=
    match st.current_target with
    | some t =>
      if st.max_search_depth < manhattanDistance head t.c then true
      else (aStar head t.c obstacles ms st.max_search_depth).isNone
    | none => true
  if needNewTarget && decide (st.target_change_interval ≤ st.steps_since_target_change) then
    match selectNewTarget head availableFood obstacles ms st.max_search_depth with
    | some pr =>
      (getDirectionFromPath head pr.2,
        { st with current_target := some pr.1, steps_since_target_change := 0 })
    | none => advancedFallback choose { st with current_target := none } gs my
  else
    match st.current_target with
    | some t =>
      match aStar head t.c obstacles ms st.max_search_depth with
      | some path => (getDirectionFromPath head path, st)
      | none => advancedFallback choose { st with current_target := none } gs my
    | none => advancedFallback choose st gs my

/-- DecisionMaker.decide_move: bump the dwell counter and dispatch on
the strategy. The Strategy enum has only the members BASIC and ADVANCED,
so the KILLER comparison in the source (against a nonexistent enum
member) is unreachable and the dispatcher reduces to these two
branches. -/
def decideMove (choose : List (List Int) → List Int)
    (st : DecisionMakerState) (gs : GameState) (my : Snake) :
    List Int × DecisionMakerState :=
  let st1 := { st with steps_since_target_change := st.steps_since_target_change + 1 }
  match st1.strategy with
  | Strategy.BASIC => (basicStrategy gs my, st1)
  | Strategy.ADVANCED => advancedStrategy choose st1 gs my

/-- Claim vocabulary: a path from start to goal that avoids the
obstacles: it begins at start, ends at goal, moves in axis-aligned unit
steps, and every cell after the first is in bounds and not an
obstacle. -/
def ValidPath (start goal : Point3D) (obstacles : Finset Point3D) (ms : MapSize)
    (p : List Point3D) : Prop :=
  p.head? = some start ∧ p.getLast? = some goal ∧
    List.Chain' (fun a b => manhattanDistance a b = 1) p ∧
    ∀ c ∈ p.tail, c ∉ obstacles ∧ inBounds c ms = true

/-- Claim vocabulary: L is the step count of a shortest valid path. -/
def IsShortestLen (start goal : Point3D) (obstacles : Finset Point3D) (ms : MapSize)
    (L : Nat) : Prop :=
  (∃ p, ValidPath start goal obstacles ms p ∧ p.length = L + 1) ∧
    ∀ q, ValidPath start goal obstacles ms q → L + 1 ≤ q.length

/-- C9: a food item at Manhattan distance exactly maxSearchDepth from the
head is in the eligible-candidate list of find_food_within_radius, and a
food item at distance maxSearchDepth + 1 is not. -/
theorem c9_radius_boundary (head : Point3D) (foodList : List Food)
    (maxSearchDepth : Nat) (f : Food) (hf : f ∈ foodList) :
    (manhattanDistance head f.c = maxSearchDepth →
      f ∈ findFoodWithinRadius head foodList maxSearchDepth) ∧
    (manhattanDistance head f.c = maxSearchDepth + 1 →
      f ∉ findFoodWithinRadius head foodList maxSearchDepth) := by
  constructor
  · intro h
    simp [findFoodWithinRadius, List.mem_filter, hf, h]
  · intro h hmem
    simp [findFoodWithinRadius, List.mem_filter, h] at hmem

theorem c9_radius_boundary_witness :
    (⟨⟨1, 0, 0⟩, 5⟩ : Food) ∈
      findFoodWithinRadius ⟨0, 0, 0⟩ [⟨⟨1, 0, 0⟩, 5⟩, ⟨⟨2, 0, 0⟩, 5⟩] 1 ∧
    (⟨⟨2, 0, 0⟩, 5⟩ : Food) ∉
      findFoodWithinRadius ⟨0, 0, 0⟩ [⟨⟨1, 0, 0⟩, 5⟩, ⟨⟨2, 0, 0⟩, 5⟩] 1 :=
  ⟨(c9_radius_boundary ⟨0, 0, 0⟩ _ 1 _ (by simp)).1 (by decide),
   (c9_radius_boundary ⟨0, 0, 0⟩ _ 1 _ (by simp)).2 (by decide)⟩

/-- C7 counterexample: with head (0,0,0) and goal (1,1,0) the first
differing axis is x, so the claim demands [1,0,0]; the code sets every
differing axis and produces [1,1,0]. -/
theorem c7_counterexample :
    getDirectionVector ⟨0, 0, 0⟩ ⟨1, 1, 0⟩ ≠ [1, 0, 0] ∧
    getDirectionVector ⟨0, 0, 0⟩ ⟨1, 1, 0⟩ = [1, 1, 0] := by
  decide

/-- C7 (amended): the desired direction sets every axis on which head and
goal differ to the sign of the difference; in particular it is the unit
vector of the single differing axis only when exactly one axis differs. -/
theorem c7_direction_vector (head target : Point3D) :
    getDirectionVector head target =
      [(target.x - head.x).sign, (target.y - head.y).sign, (target.z - head.z).sign] := by
  have key : ∀ a b : Int,
      (if a < b then (1 : Int) else if b < a then -1 else 0) = (b - a).sign := by
    intro a b
    rcases lt_trichotomy a b with h | h | h
    · rw [if_pos h, Eq.comm, Int.sign_eq_one_iff_pos]
      omega
    · simp [h, Int.sign_eq_zero_iff_zero]
    · rw [if_neg (by omega), if_pos h, Eq.comm, Int.sign_eq_neg_one_iff_neg]
      omega
  simp only [getDirectionVector, key]

/-- C2 counterexample: a dead enemy's segment within the radius is still
put into the obstacle set, so "contains an enemy segment within R only if
that enemy is alive" fails. -/
def snakeStub : Snake := ⟨"me", [1, 0, 0], [0, 0, 0], [⟨0, 0, 0⟩], 0, "alive", 0⟩

def gsDeadEnemy : GameState :=
  ⟨⟨3, 3, 3⟩, "t", 0, [], [], [⟨[⟨1, 0, 0⟩], "dead", 0⟩], [], 0, 0, 0, []⟩

theorem c2_counterexample :
    ¬ (∀ e ∈ gsDeadEnemy.enemies, ∀ p ∈ e.geometry,
        manhattanDistance ⟨0, 0, 0⟩ p ≤ 3 →
        p ∈ getObstaclesWithinRadius gsDeadEnemy snakeStub ⟨0, 0, 0⟩ 3 →
        e.status = "alive") := by
  intro h
  have := h ⟨[⟨1, 0, 0⟩], "dead", 0⟩ (by simp [gsDeadEnemy]) ⟨1, 0, 0⟩ (by simp)
    (by decide) (by decide)
  simp at this

/-- C2 (amended): the obstacle set contains every wall within Manhattan
distance R of the head, every enemy-body segment within R regardless of
the enemy's status, and every agent-body segment within R. -/
theorem c2_obstacle_index (gs : GameState) (my : Snake) (head : Point3D) (R : Nat) :
    (∀ w ∈ gs.fences, manhattanDistance head w ≤ R →
      w ∈ getObstaclesWithinRadius gs my head R) ∧
    (∀ e ∈ gs.enemies, ∀ p ∈ e.geometry, manhattanDistance head p ≤ R →
      p ∈ getObstaclesWithinRadius gs my head R) ∧
    (∀ s ∈ gs.snakes, ∀ p ∈ s.geometry, manhattanDistance head p ≤ R →
      p ∈ getObstaclesWithinRadius gs my head R) := by
  refine ⟨fun w hw hr => ?_, fun e he p hp hr => ?_, fun s hs p hp hr => ?_⟩ <;>
    simp only [getObstaclesWithinRadius, List.mem_toFinset, List.mem_append,
      List.mem_flatMap, List.mem_filter]
  · exact Or.inl (Or.inl ⟨hw, by simpa using hr⟩)
  · exact Or.inl (Or.inr ⟨e, he, hp, by simpa using hr⟩)
  · exact Or.inr ⟨s, hs, hp, by simpa using hr⟩

theorem c2_obstacle_index_witness :
    (⟨5, 0, 0⟩ : Point3D) ∈ getObstaclesWithinRadius
      ⟨⟨9, 9, 9⟩, "t", 0, [⟨5, 0, 0⟩], [snakeStub], [⟨[⟨0, 5, 0⟩], "alive", 0⟩],
        [], 0, 0, 0, []⟩ snakeStub ⟨0, 0, 0⟩ 6 ∧
    (⟨0, 5, 0⟩ : Point3D) ∈ getObstaclesWithinRadius
      ⟨⟨9, 9, 9⟩, "t", 0, [⟨5, 0, 0⟩], [snakeStub], [⟨[⟨0, 5, 0⟩], "alive", 0⟩],
        [], 0, 0, 0, []⟩ snakeStub ⟨0, 0, 0⟩ 6 ∧
    (⟨0, 0, 0⟩ : Point3D) ∈ getObstaclesWithinRadius
      ⟨⟨9, 9, 9⟩, "t", 0, [⟨5, 0, 0⟩], [snakeStub], [⟨[⟨0, 5, 0⟩], "alive", 0⟩],
        [], 0, 0, 0, []⟩ snakeStub ⟨0, 0, 0⟩ 6 :=
  ⟨(c2_obstacle_index _ snakeStub ⟨0, 0, 0⟩ 6).1 ⟨5, 0, 0⟩ (by simp) (by decide),
   (c2_obstacle_index _ snakeStub ⟨0, 0, 0⟩ 6).2.1 ⟨[⟨0, 5, 0⟩], "alive", 0⟩
     (by simp) ⟨0, 5, 0⟩ (by simp) (by decide),
   (c2_obstacle_index _ snakeStub ⟨0, 0, 0⟩ 6).2.2 snakeStub (by simp) ⟨0, 0, 0⟩
     (by simp [snakeStub]) (by decide)⟩

/-- C8 scenario: 3x3x1 map, head (1,1,0), no food, no enemies, walls at
(2,1,0) and (0,1,0), current direction [1,0,0]. -/
def snakeC8 : Snake := ⟨"me", [1, 0, 0], [1, 0, 0], [⟨1, 1, 0⟩], 0, "alive", 0⟩

def gsC8 : GameState :=
  ⟨⟨3, 3, 1⟩, "t", 0, [⟨2, 1, 0⟩, ⟨0, 1, 0⟩], [snakeC8], [], [], 0, 0, 0, []⟩

/-- C8 counterexample: in the stated scenario the basic strategy does not
return [0,1,0] or [0,-1,0]; with no food it short-circuits to the current
direction [1,0,0] without any safety check. -/
theorem c8_counterexample :
    ¬ (basicStrategy gsC8 snakeC8 = [0, 1, 0] ∨
       basicStrategy gsC8 snakeC8 = [0, -1, 0]) := by
  decide

/-- C8 (amended): in the stated scenario the basic strategy returns the
current direction [1,0,0] (the no-food branch skips safety validation),
even though the safe directions [0,1,0] and [0,-1,0] are available. -/
theorem c8_no_food_keeps_direction :
    basicStrategy gsC8 snakeC8 = [1, 0, 0] ∧
    getSafeDirections gsC8 snakeC8 = [[0, 1, 0], [0, -1, 0]] := by
  decide

/- C10: the start cell's membership in the obstacle set is irrelevant to
a_star. The only obstacle test is on relaxed neighbors, and a relaxation
into a node whose g_score is already 0 can never improve it. -/

lemma relaxNeighbor_gScore_keep (goal : Point3D) (obst : Finset Point3D) (maxd : Nat)
    (cur : Point3D) (gcur : Nat) (st : AStarState) (nb s : Point3D)
    (h0 : st.gScore s = some 0) :
    (relaxNeighbor goal obst maxd cur gcur st nb).gScore s = some 0 := by
  unfold relaxNeighbor
  by_cases hnb : nb ∈ obst
  · simpa [hnb] using h0
  · by_cases hsn : nb = s
    · subst hsn
      simp [hnb, h0]
    · have hns : ¬s = nb := fun h => hsn h.symm
      cases hg : st.gScore nb <;>
        simp only [hnb, hg, if_false, if_neg] <;>
        (repeat' split) <;>
        simp [setG, hns, h0]

lemma relaxNeighbor_erase (goal : Point3D) (obst : Finset Point3D) (maxd : Nat)
    (cur : Point3D) (gcur : Nat) (st : AStarState) (nb s : Point3D)
    (h0 : st.gScore s = some 0) :
    relaxNeighbor goal obst maxd cur gcur st nb =
      relaxNeighbor goal (obst.erase s) maxd cur gcur st nb := by
  unfold relaxNeighbor
  by_cases hnb : nb ∈ obst
  · by_cases hns : nb = s
    · subst hns
      have hne : nb ∉ obst.erase nb := Finset.not_mem_erase _ _
      simp [hnb, hne, h0]
    · have hmem : nb ∈ obst.erase s := Finset.mem_erase.2 ⟨hns, hnb⟩
      simp [hnb, hmem]
  · have hne : nb ∉ obst.erase s := fun hc => hnb (Finset.mem_erase.1 hc).2
    simp [hnb, hne]

lemma foldRelax_erase (goal : Point3D) (obst : Finset Point3D) (maxd : Nat)
    (cur : Point3D) (gcur : Nat) (s : Point3D) (l : List Point3D) :
    ∀ st : AStarState, st.gScore s = some 0 →
      l.foldl (relaxNeighbor goal obst maxd cur gcur) st =
        l.foldl (relaxNeighbor goal (obst.erase s) maxd cur gcur) st ∧
      (l.foldl (relaxNeighbor goal obst maxd cur gcur) st).gScore s = some 0 := by
  induction l with
  | nil => exact fun st h0 => ⟨rfl, h0⟩
  | cons a t ih =>
    intro st h0
    have hstep := relaxNeighbor_erase goal obst maxd cur gcur st a s h0
    have hkeep := relaxNeighbor_gScore_keep goal obst maxd cur gcur st a s h0
    have := ih (relaxNeighbor goal obst maxd cur gcur st a) hkeep
    simp only [List.foldl_cons]
    exact ⟨by rw [← hstep, this.1], this.2⟩

lemma expandNode_erase (goal : Point3D) (obst : Finset Point3D) (ms : MapSize) (maxd : Nat)
    (cur : Point3D) (gcur : Nat) (st : AStarState) (s : Point3D)
    (h0 : st.gScore s = some 0) :
    expandNode goal obst ms maxd cur gcur st =
      expandNode goal (obst.erase s) ms maxd cur gcur st ∧
    (expandNode goal obst ms maxd cur gcur st).gScore s = some 0 :=
  foldRelax_erase goal obst maxd cur gcur s (getNeighbors cur ms) st h0

lemma aStarLoop_erase (goal : Point3D) (obst : Finset Point3D) (ms : MapSize) (maxd : Nat)
    (s : Point3D) :
    ∀ fuel (st : AStarState), st.gScore s = some 0 →
      aStarLoop goal obst ms maxd fuel st =
        aStarLoop goal (obst.erase s) ms maxd fuel st := by
  intro fuel
  induction fuel with
  | zero => intro st _; rfl
  | succ n ih =>
    intro st h0
    simp only [aStarLoop]
    cases hpop : popMin st.openSet with
    | none => rfl
    | some pr =>
      obtain ⟨e, rest⟩ := pr
      cases hg : st.gScore e.2 with
      | none => simp only [hg]
      | some gcur =>
        simp only [hg]
        by_cases hgoal : e.2 = goal
        · simp [hgoal]
        · by_cases hdepth : maxd ≤ gcur
          · simp only [if_neg hgoal, if_pos hdepth]
            exact ih { st with openSet := rest } h0
          · simp only [if_neg hgoal, if_neg hdepth]
            have hex := expandNode_erase goal obst ms maxd e.2 gcur
              { st with openSet := rest } s h0
            rw [← hex.1]
            exact ih _ hex.2

/-- C10: a_star returns the same result whether or not the start cell is
a member of the obstacle set; in particular the search works although the
engine's obstacle set contains the agent's own head cell. -/
theorem c10_start_in_obstacles_irrelevant (start goal : Point3D)
    (obstacles : Finset Point3D) (ms : MapSize) (maxDepth : Nat) :
    aStar start goal obstacles ms maxDepth =
      aStar start goal (obstacles.erase start) ms maxDepth := by
  unfold aStar
  rw [aStarLoop_erase goal obstacles ms maxDepth start (aStarFuel ms maxDepth)
    (aStarInit start) (by simp [aStarInit])]

/- Soundness infrastructure for a_star: an invariant of the loop state
from which validity of any returned path follows. -/

lemma validPath_single (s : Point3D) (obst : Finset Point3D) (ms : MapSize) :
    ValidPath s s obst ms [s] := by
  refine ⟨rfl, rfl, ?_, ?_⟩ <;> simp

lemma validPath_snoc {start m n : Point3D} {obst : Finset Point3D} {ms : MapSize}
    {q : List Point3D} (h : ValidPath start m obst ms q)
    (hstep : manhattanDistance m n = 1) (hin : inBounds n ms = true)
    (hobst : n ∉ obst) : ValidPath start n obst ms (q ++ [n]) := by
  obtain ⟨h1, h2, h3, h4⟩ := h
  cases q with
  | nil => simp at h1
  | cons a t =>
    refine ⟨by simpa using h1, ?_, ?_, ?_⟩
    · exact List.getLast?_concat _
    · rw [List.chain'_append]
      refine ⟨h3, List.chain'_singleton _, ?_⟩
      intro x hx y hy
      rw [h2] at hx
      simp at hx hy
      rw [← hx, ← hy]
      exact hstep
    · intro c hc
      have hc2 : c ∈ t ∨ c = n := by simpa using hc
      rcases hc2 with hct | rfl
      · exact h4 c (by simpa using hct)
      · exact ⟨hobst, hin⟩

/-- The loop invariant of a_star that soundness rests on: the g_score and
came_from dicts have the same keys, the start is settled at 0, every
came_from edge is a unit step into a free in-bounds cell with strictly
increasing g_score, all g_scores respect the depth cap, every keyed node
is in bounds (or is the start), and every open-set entry carries a keyed
node whose g_score is at most the entry's priority. -/
structure SearchInv (start goal : Point3D) (obst : Finset Point3D) (ms : MapSize)
    (maxd : Nat) (st : AStarState) : Prop where
  keys : ∀ n : Point3D, (st.cameFrom n).isSome ↔ (st.gScore n).isSome
  gStart : st.gScore start = some 0
  cfStart : st.cameFrom start = some none
  cfNone : ∀ n : Point3D, st.cameFrom n = some none → n = start
  cfStep : ∀ n p : Point3D, st.cameFrom n = some (some p) →
    manhattanDistance p n = 1 ∧ inBounds n ms = true ∧ n ∉ obst ∧
    ∃ dp dn, st.gScore p = some dp ∧ st.gScore n = some dn ∧ dp < dn
  gCap : ∀ (n : Point3D) (d : Nat), st.gScore n = some d → d ≤ maxd
  gBounds : ∀ n : Point3D, (st.gScore n).isSome → inBounds n ms = true ∨ n = start
  queueG : ∀ (f : Nat) (n : Point3D), (f, n) ∈ st.openSet →
    ∃ d, st.gScore n = some d ∧ d ≤ f

lemma searchInv_init (start goal : Point3D) (obst : Finset Point3D) (ms : MapSize)
    (maxd : Nat) : SearchInv start goal obst ms maxd (aStarInit start) := by
  refine ⟨?_, ?_, ?_, ?_, ?_, ?_, ?_, ?_⟩
  · intro n
    by_cases h : n = start <;> simp [aStarInit, h]
  · simp [aStarInit]
  · simp [aStarInit]
  · intro n hn
    by_cases h : n = start
    · exact h
    · simp [aStarInit, h] at hn
  · intro n p hn
    by_cases h : n = start <;> simp [aStarInit, h] at hn
  · intro n d hn
    by_cases h : n = start
    · simp [aStarInit, h] at hn
      omega
    · simp [aStarInit, h] at hn
  · intro n hn
    refine Or.inr ?_
    by_cases h : n = start
    · exact h
    · simp [aStarInit, h] at hn
  · intro f n hn
    simp [aStarInit] at hn
    obtain ⟨rfl, rfl⟩ := hn
    exact ⟨0, by simp [aStarInit], Nat.le_refl 0⟩

/-- From the invariant, every keyed node is reachable from the start by a
valid path of at most its g_score many steps (walk came_from backwards). -/
lemma searchInv_path {start goal : Point3D} {obst : Finset Point3D} {ms : MapSize}
    {maxd : Nat} {st : AStarState}
    (inv : SearchInv start goal obst ms maxd st) :
    ∀ (d : Nat) (n : Point3D), st.gScore n = some d →
      ∃ p, ValidPath start n obst ms p ∧ p.length ≤ d + 1 := by
  intro d
  induction d using Nat.strong_induction_on with
  | _ d ih =>
    intro n hg
    have hcf : (st.cameFrom n).isSome := (inv.keys n).2 (by simp [hg])
    cases hc : st.cameFrom n with
    | none => rw [hc] at hcf; simp at hcf
    | some v =>
      cases v with
      | none =>
        have := inv.cfNone n hc
        subst this
        exact ⟨[n], validPath_single n obst ms, by simp⟩
      | some p =>
        obtain ⟨hstep, hin, hobst, dp, dn, hgp, hgn, hlt⟩ := inv.cfStep n p hc
        rw [hg] at hgn
        obtain rfl : dn = d := by simpa using hgn.symm
        obtain ⟨q, hq, hlen⟩ := ih dp hlt p hgp
        refine ⟨q ++ [n], validPath_snoc hq hstep hin hobst, ?_⟩
        rw [List.length_append]
        simp only [List.length_singleton]
        omega

/-- reconstruct_path returns the full came_from chain whenever the fuel
is at least the g_score of the end node. -/
lemma reconstructPath_spec {start goal : Point3D} {obst : Finset Point3D} {ms : MapSize}
    {maxd : Nat} {st : AStarState}
    (inv : SearchInv start goal obst ms maxd st) :
    ∀ (d fuel : Nat) (n : Point3D), st.gScore n = some d → d ≤ fuel →
      ValidPath start n obst ms (reconstructPath st.cameFrom fuel n) ∧
      (reconstructPath st.cameFrom fuel n).length ≤ d + 1 := by
  intro d
  induction d using Nat.strong_induction_on with
  | _ d ih =>
    intro fuel n hg hfuel
    have hcf : (st.cameFrom n).isSome := (inv.keys n).2 (by simp [hg])
    cases hc : st.cameFrom n with
    | none => rw [hc] at hcf; simp at hcf
    | some v =>
      cases v with
      | none =>
        have := inv.cfNone n hc
        subst this
        cases fuel with
        | zero => exact ⟨validPath_single n obst ms, Nat.le_add_left 1 d⟩
        | succ f =>
          simp only [reconstructPath, hc]
          exact ⟨validPath_single n obst ms, Nat.le_add_left 1 d⟩
      | some p =>
        obtain ⟨hstep, hin, hobst, dp, dn, hgp, hgn, hlt⟩ := inv.cfStep n p hc
        rw [hg] at hgn
        obtain rfl : dn = d := by simpa using hgn.symm
        cases fuel with
        | zero => omega
        | succ f =>
          simp only [reconstructPath, hc]
          obtain ⟨hq, hlen⟩ := ih dp hlt f p hgp (by omega)
          refine ⟨validPath_snoc hq hstep hin hobst, ?_⟩
          rw [List.length_append]
          simp only [List.length_singleton]
          omega

lemma manhattanDistance_self (a : Point3D) : manhattanDistance a a = 0 := by
  simp [manhattanDistance]

lemma manhattanDistance_comm (a b : Point3D) :
    manhattanDistance a b = manhattanDistance b a := by
  simp only [manhattanDistance]
  omega

lemma ne_of_manhattan_one {a b : Point3D} (h : manhattanDistance a b = 1) : a ≠ b := by
  intro he
  rw [he, manhattanDistance_self] at h
  omega

lemma getNeighbors_sound {cur nb : Point3D} {ms : MapSize}
    (h : nb ∈ getNeighbors cur ms) :
    manhattanDistance cur nb = 1 ∧ inBounds nb ms = true := by
  simp only [getNeighbors, List.mem_filter, List.mem_map] at h
  obtain ⟨⟨d, hd, rfl⟩, hin⟩ := h
  refine ⟨?_, hin⟩
  simp [possibleDirections] at hd
  rcases hd with rfl | rfl | rfl | rfl | rfl | rfl <;>
    simp [addDir, manhattanDistance]

lemma getNeighbors_complete {cur nb : Point3D} {ms : MapSize}
    (hstep : manhattanDistance cur nb = 1) (hin : inBounds nb ms = true) :
    nb ∈ getNeighbors cur ms := by
  simp only [getNeighbors, List.mem_filter, List.mem_map]
  refine ⟨?_, hin⟩
  simp only [manhattanDistance] at hstep
  obtain ⟨nx, ny, nz⟩ := nb
  obtain ⟨cx, cy, cz⟩ := cur
  simp only at hstep
  rcases Nat.eq_zero_or_pos (cx - nx).natAbs with hx | hx
  · rcases Nat.eq_zero_or_pos (cy - ny).natAbs with hy | hy
    · by_cases hz : cz < nz
      · exact ⟨[0, 0, 1], by simp [possibleDirections], by simp [addDir]; omega⟩
      · exact ⟨[0, 0, -1], by simp [possibleDirections], by simp [addDir]; omega⟩
    · by_cases hy2 : cy < ny
      · exact ⟨[0, 1, 0], by simp [possibleDirections], by simp [addDir]; omega⟩
      · exact ⟨[0, -1, 0], by simp [possibleDirections], by simp [addDir]; omega⟩
  · by_cases hx2 : cx < nx
    · exact ⟨[1, 0, 0], by simp [possibleDirections], by simp [addDir]; omega⟩
    · exact ⟨[-1, 0, 0], by simp [possibleDirections], by simp [addDir]; omega⟩

/-- Under the loop guard g(current) < maxDepth, one relaxation step
either leaves the state unchanged or (when the neighbor is free and the
tentative score improves) rewrites the three state components at the
neighbor and pushes the matching open-set entry. -/
lemma relaxNeighbor_shape (goal : Point3D) (obst : Finset Point3D) (maxd : Nat)
    (cur nb : Point3D) (gcur : Nat) (st : AStarState) (hlt : gcur < maxd) :
    relaxNeighbor goal obst maxd cur gcur st nb = st ∨
    (nb ∉ obst ∧
      (st.gScore nb = none ∨ ∃ old, st.gScore nb = some old ∧ gcur + 1 < old) ∧
      relaxNeighbor goal obst maxd cur gcur st nb =
        { openSet := (gcur + 1 + manhattanDistance nb goal, nb) :: st.openSet,
          cameFrom := setParent st.cameFrom nb (some cur),
          gScore := setG st.gScore nb (gcur + 1) }) := by
  unfold relaxNeighbor
  by_cases hobst : nb ∈ obst
  · left
    simp [hobst]
  · cases hg : st.gScore nb with
    | none =>
      right
      refine ⟨hobst, Or.inl rfl, ?_⟩
      have hle : gcur + 1 ≤ maxd := hlt
      simp [hobst, hg, hle]
    | some old =>
      by_cases himp : gcur + 1 < old
      · right
        refine ⟨hobst, Or.inr ⟨old, rfl, himp⟩, ?_⟩
        have hle : gcur + 1 ≤ maxd := hlt
        simp [hobst, hg, himp, hle]
      · left
        simp [hobst, hg, himp]

lemma relaxNeighbor_inv {start goal : Point3D} {obst : Finset Point3D} {ms : MapSize}
    {maxd : Nat} {st : AStarState} {cur nb : Point3D} {gcur : Nat}
    (inv : SearchInv start goal obst ms maxd st)
    (hcur : st.gScore cur = some gcur) (hlt : gcur < maxd)
    (hstep : manhattanDistance cur nb = 1) (hin : inBounds nb ms = true) :
    SearchInv start goal obst ms maxd (relaxNeighbor goal obst maxd cur gcur st nb) := by
  rcases relaxNeighbor_shape goal obst maxd cur nb gcur st hlt with heq | ⟨hobst, himp, heq⟩
  · rw [heq]
    exact inv
  · rw [heq]
    have hnbcur : nb ≠ cur := (ne_of_manhattan_one hstep).symm
    have hnbstart : nb ≠ start := by
      intro he
      subst he
      rcases himp with h | ⟨old, hold, holt⟩
      · rw [inv.gStart] at h
        exact Option.noConfusion h
      · rw [inv.gStart] at hold
        obtain rfl : (0 : Nat) = old := by simpa using hold
        omega
    refine ⟨?_, ?_, ?_, ?_, ?_, ?_, ?_, ?_⟩
    · intro n
      by_cases hn : n = nb
      · simp [setParent, setG, hn]
      · simp only [setParent, setG, if_neg hn]
        exact inv.keys n
    · simp only [setG]
      rw [if_neg (fun h => hnbstart h.symm)]
      exact inv.gStart
    · simp only [setParent]
      rw [if_neg (fun h => hnbstart h.symm)]
      exact inv.cfStart
    · intro n hn
      simp only [setParent] at hn
      by_cases h : n = nb
      · rw [if_pos h] at hn
        exact absurd hn (by simp)
      · rw [if_neg h] at hn
        exact inv.cfNone n hn
    · intro n p hn
      simp only [setParent] at hn
      by_cases h : n = nb
      · rw [if_pos h] at hn
        obtain rfl : cur = p := by simpa using hn
        subst h
        refine ⟨hstep, hin, hobst, gcur, gcur + 1, ?_, ?_, Nat.lt_succ_self gcur⟩
        · simp only [setG]
          rw [if_neg (fun h => hnbcur h.symm)]
          exact hcur
        · simp [setG]
      · rw [if_neg h] at hn
        obtain ⟨h1, h2, h3, dp, dn, hgp, hgn, hdlt⟩ := inv.cfStep n p hn
        by_cases hp : p = nb
        · subst hp
          rcases himp with hnone | ⟨old, hold, holt⟩
          · rw [hgp] at hnone
            exact Option.noConfusion hnone
          · rw [hgp] at hold
            obtain rfl : dp = old := by simpa using hold
            refine ⟨h1, h2, h3, gcur + 1, dn, by simp [setG], ?_, by omega⟩
            simp only [setG]
            rw [if_neg h]
            exact hgn
        · refine ⟨h1, h2, h3, dp, dn, ?_, ?_, hdlt⟩
          · simp only [setG]
            rw [if_neg hp]
            exact hgp
          · simp only [setG]
            rw [if_neg h]
            exact hgn
    · intro n d hn
      simp only [setG] at hn
      by_cases h : n = nb
      · rw [if_pos h] at hn
        obtain rfl : gcur + 1 = d := by simpa using hn
        omega
      · rw [if_neg h] at hn
        exact inv.gCap n d hn
    · intro n hn
      simp only [setG] at hn
      by_cases h : n = nb
      · subst h
        exact Or.inl hin
      · rw [if_neg h] at hn
        exact inv.gBounds n hn
    · intro f n hn
      simp only [List.mem_cons] at hn
      rcases hn with hn | hn
      · obtain ⟨rfl, rfl⟩ : f = gcur + 1 + manhattanDistance nb goal ∧ n = nb := by
          simpa using hn
        exact ⟨gcur + 1, by simp [setG], by omega⟩
      · obtain ⟨d, hd, hdle⟩ := inv.queueG f n hn
        by_cases h : n = nb
        · subst h
          refine ⟨gcur + 1, by simp [setG], ?_⟩
          rcases himp with hnone | ⟨old, hold, holt⟩
          · rw [hd] at hnone
            exact Option.noConfusion hnone
          · rw [hd] at hold
            obtain rfl : d = old := by simpa using hold
            omega
        · refine ⟨d, ?_, hdle⟩
          simp only [setG]
          rw [if_neg h]
          exact hd

lemma entryLe_refl (a : Nat × Point3D) : entryLe a a = true := by
  simp [entryLe]

lemma entryLe_total (a b : Nat × Point3D) :
    entryLe a b = true ∨ entryLe b a = true := by
  simp only [entryLe, decide_eq_true_eq]
  omega

lemma entryLe_trans {a b c : Nat × Point3D} (h1 : entryLe a b = true)
    (h2 : entryLe b c = true) : entryLe a c = true := by
  simp only [entryLe, decide_eq_true_eq] at *
  omega

lemma findMinFold :
    ∀ (l : List (Nat × Point3D)) (a m : Nat × Point3D),
      l.foldl minStep (some a) = some m →
      (m = a ∨ m ∈ l) ∧ entryLe m a = true ∧ ∀ e ∈ l, entryLe m e = true := by
  intro l
  induction l with
  | nil =>
    intro a m h
    simp only [List.foldl_nil] at h
    obtain rfl : a = m := by simpa using h
    exact ⟨Or.inl rfl, entryLe_refl a, by simp⟩
  | cons e t ih =>
    intro a m h
    simp only [List.foldl_cons] at h
    rw [show minStep (some a) e = if entryLe a e then some a else some e from rfl] at h
    by_cases hle : entryLe a e = true
    · rw [if_pos hle] at h
      obtain ⟨hm, hma, hall⟩ := ih a m h
      refine ⟨?_, hma, ?_⟩
      · rcases hm with rfl | hm
        · exact Or.inl rfl
        · exact Or.inr (List.mem_cons_of_mem e hm)
      · intro e2 he2
        rcases List.mem_cons.1 he2 with rfl | he2
        · exact entryLe_trans hma hle
        · exact hall e2 he2
    · rw [if_neg hle] at h
      obtain ⟨hm, hme, hall⟩ := ih e m h
      have hea : entryLe e a = true := (entryLe_total a e).resolve_left hle
      refine ⟨?_, entryLe_trans hme hea, ?_⟩
      · rcases hm with hm | hm
        · exact Or.inr (by rw [hm]; exact List.mem_cons_self e t)
        · exact Or.inr (List.mem_cons_of_mem e hm)
      · intro e2 he2
        rcases List.mem_cons.1 he2 with he2 | he2
        · rw [he2]
          exact hme
        · exact hall e2 he2

lemma foldMin_some : ∀ (t : List (Nat × Point3D)) (a : Nat × Point3D),
    ∃ m, t.foldl minStep (some a) = some m := by
  intro t
  induction t with
  | nil => exact fun a => ⟨a, rfl⟩
  | cons e t ih =>
    intro a
    simp only [List.foldl_cons]
    rw [show minStep (some a) e = if entryLe a e then some a else some e from rfl]
    by_cases h : entryLe a e = true
    · rw [if_pos h]
      exact ih a
    · rw [if_neg h]
      exact ih e

lemma findMinEntry_spec {l : List (Nat × Point3D)} {m : Nat × Point3D}
    (h : findMinEntry l = some m) : m ∈ l ∧ ∀ e ∈ l, entryLe m e = true := by
  cases l with
  | nil => simp [findMinEntry] at h
  | cons a t =>
    unfold findMinEntry at h
    simp only [List.foldl_cons] at h
    rw [show minStep none a = some a from rfl] at h
    obtain ⟨hm, hma, hall⟩ := findMinFold t a m h
    refine ⟨?_, ?_⟩
    · rcases hm with rfl | hm
      · exact List.mem_cons_self _ _
      · exact List.mem_cons_of_mem _ hm
    · intro e he
      rcases List.mem_cons.1 he with rfl | he
      · exact hma
      · exact hall e he

lemma popMin_spec {l : List (Nat × Point3D)} {m : Nat × Point3D}
    {rest : List (Nat × Point3D)} (h : popMin l = some (m, rest)) :
    m ∈ l ∧ rest = l.erase m ∧ ∀ e ∈ l, entryLe m e = true := by
  unfold popMin at h
  cases hf : findMinEntry l with
  | none =>
    rw [hf] at h
    exact absurd h (by simp)
  | some m2 =>
    rw [hf] at h
    obtain ⟨rfl, rfl⟩ : m2 = m ∧ l.erase m2 = rest := by simpa using h
    obtain ⟨hmem, hall⟩ := findMinEntry_spec hf
    exact ⟨hmem, rfl, hall⟩

lemma popMin_none {l : List (Nat × Point3D)} (h : popMin l = none) : l = [] := by
  cases l with
  | nil => rfl
  | cons a t =>
    exfalso
    have hex : ∃ m, findMinEntry (a :: t) = some m := by
      unfold findMinEntry
      simp only [List.foldl_cons]
      rw [show minStep none a = some a from rfl]
      exact foldMin_some t a
    obtain ⟨m, hm⟩ := hex
    unfold popMin at h
    rw [hm] at h
    exact absurd h (by simp)

lemma relaxNeighbor_gScore_other (goal : Point3D) (obst : Finset Point3D) (maxd : Nat)
    (cur : Point3D) (gcur : Nat) (st : AStarState) (nb m : Point3D) (hne : m ≠ nb) :
    (relaxNeighbor goal obst maxd cur gcur st nb).gScore m = st.gScore m := by
  unfold relaxNeighbor
  by_cases hobst : nb ∈ obst
  · simp [hobst]
  · cases hg : st.gScore nb <;>
      simp only [hobst, hg, if_neg] <;>
      (repeat' split) <;>
      simp [setG, hne]

lemma searchInv_set_openSet {start goal : Point3D} {obst : Finset Point3D}
    {ms : MapSize} {maxd : Nat} {st : AStarState}
    (inv : SearchInv start goal obst ms maxd st) (l : List (Nat × Point3D))
    (hsub : ∀ e ∈ l, e ∈ st.openSet) :
    SearchInv start goal obst ms maxd { st with openSet := l } :=
  ⟨inv.keys, inv.gStart, inv.cfStart, inv.cfNone, inv.cfStep, inv.gCap, inv.gBounds,
   fun f n hn => inv.queueG f n (hsub (f, n) hn)⟩

lemma foldRelax_inv {start goal : Point3D} {obst : Finset Point3D} {ms : MapSize}
    {maxd : Nat} {cur : Point3D} {gcur : Nat} (hlt : gcur < maxd) :
    ∀ (l : List Point3D) (st : AStarState),
      (∀ nb ∈ l, manhattanDistance cur nb = 1 ∧ inBounds nb ms = true) →
      SearchInv start goal obst ms maxd st → st.gScore cur = some gcur →
      SearchInv start goal obst ms maxd
        (l.foldl (relaxNeighbor goal obst maxd cur gcur) st) := by
  intro l
  induction l with
  | nil => exact fun st _ inv _ => inv
  | cons a t ih =>
    intro st hl inv hcur
    obtain ⟨ha1, ha2⟩ := hl a (List.mem_cons_self a t)
    have inv2 := relaxNeighbor_inv inv hcur hlt ha1 ha2
    have hcur2 : (relaxNeighbor goal obst maxd cur gcur st a).gScore cur = some gcur := by
      rw [relaxNeighbor_gScore_other goal obst maxd cur gcur st a cur
        (ne_of_manhattan_one ha1)]
      exact hcur
    exact ih _ (fun nb hnb => hl nb (List.mem_cons_of_mem a hnb)) inv2 hcur2

lemma expandNode_inv {start goal : Point3D} {obst : Finset Point3D} {ms : MapSize}
    {maxd : Nat} {st : AStarState} {cur : Point3D} {gcur : Nat}
    (inv : SearchInv start goal obst ms maxd st) (hcur : st.gScore cur = some gcur)
    (hlt : gcur < maxd) :
    SearchInv start goal obst ms maxd (expandNode goal obst ms maxd cur gcur st) :=
  foldRelax_inv hlt (getNeighbors cur ms) st (fun nb hnb => getNeighbors_sound hnb)
    inv hcur

lemma aStarLoop_sound {start goal : Point3D} {obst : Finset Point3D} {ms : MapSize}
    {maxd : Nat} :
    ∀ (fuel : Nat) (st : AStarState) (p : List Point3D),
      SearchInv start goal obst ms maxd st →
      aStarLoop goal obst ms maxd fuel st = some (some p) →
      ValidPath start goal obst ms p ∧ p.length ≤ maxd + 1 := by
  intro fuel
  induction fuel with
  | zero =>
    intro st p inv h
    exact absurd h (by simp [aStarLoop])
  | succ n ih =>
    intro st p inv h
    simp only [aStarLoop] at h
    cases hpop : popMin st.openSet with
    | none =>
      rw [hpop] at h
      simp at h
    | some pr =>
      obtain ⟨e, rest⟩ := pr
      rw [hpop] at h
      cases hg : st.gScore e.2 with
      | none => simp [hg] at h
      | some gcur =>
        simp only [hg] at h
        obtain ⟨hmem, hrest, hmin⟩ := popMin_spec hpop
        by_cases hgoal : e.2 = goal
        · rw [if_pos hgoal] at h
          obtain hp : reconstructPath st.cameFrom gcur e.2 = p := by simpa using h
          rw [hgoal] at hg
          have hspec := reconstructPath_spec inv gcur gcur goal hg (Nat.le_refl gcur)
          rw [hgoal] at hp
          rw [hp] at hspec
          exact ⟨hspec.1, hspec.2.trans (by
            have := inv.gCap goal gcur hg
            omega)⟩
        · rw [if_neg hgoal] at h
          have hsub : ∀ x ∈ rest, x ∈ st.openSet := by
            intro x hx
            rw [hrest] at hx
            exact List.mem_of_mem_erase hx
          have inv2 := searchInv_set_openSet inv rest hsub
          by_cases hd : maxd ≤ gcur
          · rw [if_pos hd] at h
            exact ih _ p inv2 h
          · rw [if_neg hd] at h
            have inv3 := expandNode_inv inv2 (show _ = some gcur from hg)
              (by omega)
            exact ih _ p inv3 h

lemma aStar_sound {start goal : Point3D} {obst : Finset Point3D} {ms : MapSize}
    {maxd : Nat} {p : List Point3D}
    (h : aStar start goal obst ms maxd = some p) :
    ValidPath start goal obst ms p ∧ p.length ≤ maxd + 1 := by
  unfold aStar at h
  cases hl : aStarLoop goal obst ms maxd (aStarFuel ms maxd) (aStarInit start) with
  | none =>
    rw [hl] at h
    exact absurd h (by simp)
  | some r =>
    rw [hl] at h
    refine aStarLoop_sound (aStarFuel ms maxd) (aStarInit start) p
      (searchInv_init start goal obst ms maxd) ?_
    have h2 : r = some p := h
    rw [hl, h2]

/-- C4: whenever a_star returns a path, its first element is the start,
its last is the goal, consecutive cells differ by exactly one unit in
exactly one axis (Manhattan distance 1), and every cell after the start
is inside the map bounds and outside the obstacle set. -/
theorem c4_path_validity (start goal : Point3D) (obstacles : Finset Point3D)
    (ms : MapSize) (maxDepth : Nat) (p : List Point3D)
    (h : aStar start goal obstacles ms maxDepth = some p) :
    p.head? = some start ∧ p.getLast? = some goal ∧
    List.Chain' (fun a b => manhattanDistance a b = 1) p ∧
    ∀ c ∈ p.tail, c ∉ obstacles ∧ inBounds c ms = true :=
  (aStar_sound h).1

theorem c4_path_validity_witness :
    ([⟨0, 0, 0⟩, ⟨1, 0, 0⟩, ⟨2, 0, 0⟩] : List Point3D).head? = some ⟨0, 0, 0⟩ ∧
    ([⟨0, 0, 0⟩, ⟨1, 0, 0⟩, ⟨2, 0, 0⟩] : List Point3D).getLast? = some ⟨2, 0, 0⟩ ∧
    List.Chain' (fun a b => manhattanDistance a b = 1)
      ([⟨0, 0, 0⟩, ⟨1, 0, 0⟩, ⟨2, 0, 0⟩] : List Point3D) ∧
    ∀ c ∈ ([⟨0, 0, 0⟩, ⟨1, 0, 0⟩, ⟨2, 0, 0⟩] : List Point3D).tail,
      c ∉ ({⟨0, 0, 0⟩} : Finset Point3D) ∧ inBounds c ⟨3, 1, 1⟩ = true :=
  c4_path_validity ⟨0, 0, 0⟩ ⟨2, 0, 0⟩ {⟨0, 0, 0⟩} ⟨3, 1, 1⟩ 4
    [⟨0, 0, 0⟩, ⟨1, 0, 0⟩, ⟨2, 0, 0⟩] (by decide)

/- Helpers for the engine-level claims. -/

lemma getSafeDirections_subset {gs : GameState} {my : Snake} {d : List Int}
    (h : d ∈ getSafeDirections gs my) : d ∈ possibleDirections := by
  unfold getSafeDirections at h
  exact (List.mem_filter.1 h).1

lemma getAlternativeDirections_subset {head target : Point3D}
    {safe : List (List Int)} {d : List Int}
    (h : d ∈ getAlternativeDirections head target safe) : d ∈ safe := by
  unfold getAlternativeDirections at h
  exact (List.mergeSort_perm safe _).mem_iff.1 h

lemma getDirectionFromPath_eq_map (head b : Point3D) (t : List Point3D) :
    getDirectionFromPath head (head :: b :: t) =
      [b.x - head.x, b.y - head.y, b.z - head.z].map
        (fun d => d / max (Int.ofNat d.natAbs) 1) := by
  have hlen : ¬ (head :: b :: t).length < 2 := by simp
  simp [getDirectionFromPath, hlen]

lemma norm_unit_mem {u v w : Int} (h : u.natAbs + v.natAbs + w.natAbs = 1) :
    [u, v, w].map (fun d => d / max (Int.ofNat d.natAbs) 1) ∈ possibleDirections := by
  by_cases hu : u.natAbs = 1
  · obtain ⟨hv, hw⟩ : v = 0 ∧ w = 0 := by omega
    by_cases hu1 : u = 1
    · rw [hu1, hv, hw]
      norm_num [possibleDirections]
    · have hu2 : u = -1 := by omega
      rw [hu2, hv, hw]
      norm_num [possibleDirections]
  · by_cases hv : v.natAbs = 1
    · obtain ⟨hu0, hw⟩ : u = 0 ∧ w = 0 := by omega
      by_cases hv1 : v = 1
      · rw [hu0, hv1, hw]
        norm_num [possibleDirections]
      · have hv2 : v = -1 := by omega
        rw [hu0, hv2, hw]
        norm_num [possibleDirections]
    · obtain ⟨hu0, hv0⟩ : u = 0 ∧ v = 0 := by omega
      by_cases hww : w = 1
      · rw [hu0, hv0, hww]
        norm_num [possibleDirections]
      · have hw2 : w = -1 := by omega
        rw [hu0, hv0, hw2]
        norm_num [possibleDirections]

lemma getDirectionFromPath_cons_unit {head b : Point3D} {t : List Point3D}
    (h : manhattanDistance head b = 1) :
    getDirectionFromPath head (head :: b :: t) ∈ possibleDirections := by
  rw [getDirectionFromPath_eq_map]
  apply norm_unit_mem
  simp only [manhattanDistance] at h
  omega

lemma getDirectionFromPath_of_aStar {head goal2 : Point3D} {obst : Finset Point3D}
    {ms : MapSize} {maxd : Nat} {path : List Point3D}
    (h : aStar head goal2 obst ms maxd = some path) :
    getDirectionFromPath head path ∈ possibleDirections ∨
    getDirectionFromPath head path = [0, 0, 0] := by
  obtain ⟨⟨hh, _, hchain, _⟩, _⟩ := aStar_sound h
  cases path with
  | nil => simp at hh
  | cons a t =>
    obtain rfl : a = head := by simpa using hh
    cases t with
    | nil => exact Or.inr rfl
    | cons b t2 =>
      exact Or.inl (getDirectionFromPath_cons_unit (List.chain'_cons.1 hchain).1)

lemma selectNewTarget_aStar {head : Point3D} {af : List Food} {obst : Finset Point3D}
    {ms : MapSize} {maxd : Nat} {t : Food} {path : List Point3D}
    (h : selectNewTarget head af obst ms maxd = some (t, path)) :
    aStar head t.c obst ms maxd = some path := by
  unfold selectNewTarget at h
  obtain ⟨food, hmem, hf⟩ := List.exists_of_findSome?_eq_some h
  cases hp : aStar head food.c obst ms maxd with
  | none =>
    rw [hp] at hf
    exact absurd hf (by simp)
  | some p2 =>
    rw [hp] at hf
    obtain ⟨rfl, rfl⟩ : food = t ∧ p2 = path := by simpa using hf
    exact hp

lemma basicStrategy_shape (gs : GameState) (my : Snake) :
    basicStrategy gs my ∈ possibleDirections ∨ basicStrategy gs my = my.direction := by
  simp only [basicStrategy]
  split
  · exact Or.inr rfl
  next target _ =>
    split
    next hdes => exact Or.inl (getSafeDirections_subset hdes)
    next hdes =>
      split
      next a t2 heq =>
        have ha : a ∈ getAlternativeDirections (my.geometry.headD ⟨0, 0, 0⟩) target.c
            (getSafeDirections gs my) := by
          rw [heq]
          exact List.mem_cons_self a t2
        exact Or.inl (getSafeDirections_subset (getAlternativeDirections_subset ha))
      next heq =>
        split
        next s t2 heq2 =>
          have hs : s ∈ getSafeDirections gs my := by
            rw [heq2]
            exact List.mem_cons_self s t2
          exact Or.inl (getSafeDirections_subset hs)
        next heq2 => exact Or.inr rfl

lemma advancedFallback_shape (choose : List (List Int) → List Int)
    (hchoose : ∀ l, l ≠ [] → choose l ∈ l)
    (st : DecisionMakerState) (gs : GameState) (my : Snake) :
    (advancedFallback choose st gs my).1 ∈ possibleDirections ∨
    (advancedFallback choose st gs my).1 = my.direction := by
  unfold advancedFallback
  by_cases hs : (getSafeDirections gs my).isEmpty
  · right
    simp [hs]
  · left
    simp only [hs, Bool.false_eq_true, if_false]
    have hne : getSafeDirections gs my ≠ [] := by
      intro he
      rw [he] at hs
      exact hs rfl
    exact getSafeDirections_subset (hchoose _ hne)

lemma advancedStrategy_shape (choose : List (List Int) → List Int)
    (hchoose : ∀ l, l ≠ [] → choose l ∈ l)
    (st : DecisionMakerState) (gs : GameState) (my : Snake) :
    (advancedStrategy choose st gs my).1 ∈ possibleDirections ∨
    (advancedStrategy choose st gs my).1 = my.direction ∨
    (advancedStrategy choose st gs my).1 = [0, 0, 0] := by
  simp only [advancedStrategy]
  split
  · split
    next pr heq =>
      obtain ⟨newT, newP⟩ := pr
      rcases getDirectionFromPath_of_aStar (selectNewTarget_aStar heq) with h | h
      · exact Or.inl h
      · exact Or.inr (Or.inr h)
    next heq =>
      rcases advancedFallback_shape choose hchoose
        { st with current_target := none } gs my with h | h
      · exact Or.inl h
      · exact Or.inr (Or.inl h)
  · split
    next t heq2 =>
      split
      next path hpath =>
        rcases getDirectionFromPath_of_aStar hpath with h | h
        · exact Or.inl h
        · exact Or.inr (Or.inr h)
      next hpath =>
        rcases advancedFallback_shape choose hchoose _ gs my with h | h
        · exact Or.inl h
        · exact Or.inr (Or.inl h)
    next heq2 =>
      rcases advancedFallback_shape choose hchoose _ gs my with h | h
      · exact Or.inl h
      · exact Or.inr (Or.inl h)

/-- C5 (amended): every value returned by decide_move is one of the six
unit directions, or the snake's stored current direction (the no-food and
no-safe-direction fallbacks return it as is), or [0, 0, 0] (emitted when
the A* path to the chosen target has fewer than two cells); the all-zero
value is not restricted to "no history and no safe move". -/
theorem c5_direction_validity (choose : List (List Int) → List Int)
    (hchoose : ∀ l, l ≠ [] → choose l ∈ l)
    (st : DecisionMakerState) (gs : GameState) (my : Snake) :
    (decideMove choose st gs my).1 ∈ possibleDirections ∨
    (decideMove choose st gs my).1 = my.direction ∨
    (decideMove choose st gs my).1 = [0, 0, 0] := by
  obtain ⟨strat, maxd, tci, ct, steps⟩ := st
  cases strat with
  | BASIC =>
    rcases basicStrategy_shape gs my with h | h
    · exact Or.inl h
    · exact Or.inr (Or.inl h)
  | ADVANCED => exact advancedStrategy_shape choose hchoose _ gs my

/-- A concrete choice oracle for closed instances: random.choice replaced
by "first element". -/
def chooseFirst (l : List (List Int)) : List Int := l.headD [0, 0, 0]

lemma chooseFirst_mem : ∀ l : List (List Int), l ≠ [] → chooseFirst l ∈ l := by
  intro l hl
  cases l with
  | nil => exact absurd rfl hl
  | cons a t => exact List.mem_cons_self a t

/-- C5 counterexample scenario: the persisted target sits on the head
cell, so the path has a single cell and decide_move returns [0,0,0] even
though the snake has movement history and safe moves exist. -/
def snakeC5 : Snake := ⟨"me", [1, 0, 0], [1, 0, 0], [⟨1, 1, 1⟩], 0, "alive", 0⟩

def gsC5 : GameState :=
  ⟨⟨3, 3, 3⟩, "t", 0, [], [snakeC5], [], [], 0, 0, 0, []⟩

def stC5 : DecisionMakerState :=
  ⟨Strategy.ADVANCED, 3, 5, some ⟨⟨1, 1, 1⟩, 1⟩, 0⟩

theorem c5_counterexample :
    (decideMove chooseFirst stC5 gsC5 snakeC5).1 = [0, 0, 0] ∧
    getSafeDirections gsC5 snakeC5 ≠ [] ∧
    snakeC5.direction ≠ [0, 0, 0] := by
  refine ⟨?_, ?_, ?_⟩ <;> decide

theorem c5_direction_validity_witness :
    (decideMove chooseFirst stC5 gsC5 snakeC5).1 ∈ possibleDirections ∨
    (decideMove chooseFirst stC5 gsC5 snakeC5).1 = snakeC5.direction ∨
    (decideMove chooseFirst stC5 gsC5 snakeC5).1 = [0, 0, 0] :=
  c5_direction_validity chooseFirst chooseFirst_mem stC5 gsC5 snakeC5

/- C6 / C1: retention of a valid persisted target. -/

lemma advancedStrategy_keeps {choose : List (List Int) → List Int}
    {st : DecisionMakerState} {gs : GameState} {my : Snake} {t : Food}
    {path : List Point3D}
    (hct : st.current_target = some t)
    (hdist : manhattanDistance (my.geometry.headD ⟨0, 0, 0⟩) t.c ≤ st.max_search_depth)
    (hpath : aStar (my.geometry.headD ⟨0, 0, 0⟩) t.c
        (getObstaclesWithinRadius gs my (my.geometry.headD ⟨0, 0, 0⟩) st.max_search_depth)
        gs.map_size st.max_search_depth = some path) :
    advancedStrategy choose st gs my =
      (getDirectionFromPath (my.geometry.headD ⟨0, 0, 0⟩) path, st) := by
  simp only [advancedStrategy, hct]
  rw [if_neg (not_lt.2 hdist), hpath]
  simp

lemma decideMove_keeps {choose : List (List Int) → List Int}
    {st : DecisionMakerState} {gs : GameState} {my : Snake} {t : Food}
    {path : List Point3D}
    (hstrat : st.strategy = Strategy.ADVANCED)
    (hct : st.current_target = some t)
    (hdist : manhattanDistance (my.geometry.headD ⟨0, 0, 0⟩) t.c ≤ st.max_search_depth)
    (hpath : aStar (my.geometry.headD ⟨0, 0, 0⟩) t.c
        (getObstaclesWithinRadius gs my (my.geometry.headD ⟨0, 0, 0⟩) st.max_search_depth)
        gs.map_size st.max_search_depth = some path) :
    decideMove choose st gs my =
      (getDirectionFromPath (my.geometry.headD ⟨0, 0, 0⟩) path,
        { st with steps_since_target_change := st.steps_since_target_change + 1 }) := by
  obtain ⟨strat, maxd, tci, ct, steps⟩ := st
  subst hstrat
  simp only [decideMove]
  exact advancedStrategy_keeps hct hdist hpath

/-- Iterated decision calls: fold decide_move over a sequence of per-turn
snapshots, keeping only the engine state (claim vocabulary for the
temporal claims). -/
def advRun (choose : List (List Int) → List Int) (st : DecisionMakerState)
    (calls : List (GameState × Snake)) : DecisionMakerState :=
  calls.foldl (fun s c => (decideMove choose s c.1 c.2).2) st

/-- C6: with targetChangeInterval = 5, as long as the persisted target
stays within the radius and reachable under each call's obstacle set, the
advanced strategy retains the same persisted target across every call of
the sequence (in particular for at least 5 calls), regardless of any
closer candidate in the food lists. -/
theorem c6_target_persistence (choose : List (List Int) → List Int)
    (st0 : DecisionMakerState) (t : Food) (calls : List (GameState × Snake))
    (hstrat : st0.strategy = Strategy.ADVANCED)
    (htci : st0.target_change_interval = 5)
    (hct : st0.current_target = some t)
    (hvalid : ∀ c ∈ calls,
      manhattanDistance (c.2.geometry.headD ⟨0, 0, 0⟩) t.c ≤ st0.max_search_depth ∧
      (aStar (c.2.geometry.headD ⟨0, 0, 0⟩) t.c
        (getObstaclesWithinRadius c.1 c.2 (c.2.geometry.headD ⟨0, 0, 0⟩)
          st0.max_search_depth)
        c.1.map_size st0.max_search_depth).isSome = true) :
    (advRun choose st0 calls).current_target = some t := by
  induction calls generalizing st0 with
  | nil => exact hct
  | cons c rest ih =>
    obtain ⟨hd1, hd2⟩ := hvalid c (List.mem_cons_self c rest)
    obtain ⟨path, hpath⟩ := Option.isSome_iff_exists.1 hd2
    have hstep := @decideMove_keeps choose _ c.1 c.2 t path hstrat hct hd1 hpath
    simp only [advRun, List.foldl_cons]
    rw [hstep]
    exact ih _ hstrat htci hct
      (fun c2 hc2 => hvalid c2 (List.mem_cons_of_mem c hc2))

def snakeC6 : Snake := ⟨"me", [1, 0, 0], [1, 0, 0], [⟨0, 0, 0⟩], 0, "alive", 0⟩

def gsC6 : GameState :=
  ⟨⟨5, 1, 1⟩, "t", 0, [], [snakeC6], [],
    [⟨⟨1, 0, 0⟩, 1⟩, ⟨⟨2, 0, 0⟩, 1⟩], 0, 0, 0, []⟩

def stC6 : DecisionMakerState := ⟨Strategy.ADVANCED, 4, 5, some ⟨⟨2, 0, 0⟩, 1⟩, 0⟩

theorem c6_target_persistence_witness :
    (advRun chooseFirst stC6
      (List.replicate 5 (gsC6, snakeC6))).current_target = some ⟨⟨2, 0, 0⟩, 1⟩ :=
  c6_target_persistence chooseFirst stC6 ⟨⟨2, 0, 0⟩, 1⟩ _ rfl rfl rfl (by decide)

/-- C1 counterexample scenario: the persisted food target (2,0,0) is
absent from the (empty) food list, yet decide_move keeps it and moves
[1,0,0], the first step of the A* path toward the stale position. -/
def snakeC1 : Snake := ⟨"me", [0, 1, 0], [0, 1, 0], [⟨0, 0, 0⟩], 0, "alive", 0⟩

def gsC1 : GameState := ⟨⟨3, 1, 1⟩, "t", 0, [], [snakeC1], [], [], 0, 0, 0, []⟩

def stC1 : DecisionMakerState := ⟨Strategy.ADVANCED, 4, 5, some ⟨⟨2, 0, 0⟩, 1⟩, 0⟩

theorem c1_counterexample :
    gsC1.food = [] ∧
    (decideMove chooseFirst stC1 gsC1 snakeC1).2.current_target =
      some ⟨⟨2, 0, 0⟩, 1⟩ ∧
    (decideMove chooseFirst stC1 gsC1 snakeC1).1 = [1, 0, 0] ∧
    aStar ⟨0, 0, 0⟩ ⟨2, 0, 0⟩ (getObstaclesWithinRadius gsC1 snakeC1 ⟨0, 0, 0⟩ 4)
      gsC1.map_size 4 = some [⟨0, 0, 0⟩, ⟨1, 0, 0⟩, ⟨2, 0, 0⟩] := by
  refine ⟨rfl, ?_, ?_, ?_⟩ <;> decide

/-- C1 (amended): a persisted food target that no longer appears in the
snapshot's food list is NOT invalidated by that absence: as long as it is
within the radius and a path to it exists under the current obstacle set,
the next decision call retains it and emits the first step of the path
toward its (stale) position. -/
theorem c1_stale_target_followed (choose : List (List Int) → List Int)
    (st : DecisionMakerState) (gs : GameState) (my : Snake) (t : Food)
    (path : List Point3D)
    (hstrat : st.strategy = Strategy.ADVANCED)
    (hct : st.current_target = some t)
    (habsent : ∀ f ∈ gs.food, f.c ≠ t.c)
    (hdist : manhattanDistance (my.geometry.headD ⟨0, 0, 0⟩) t.c ≤ st.max_search_depth)
    (hpath : aStar (my.geometry.headD ⟨0, 0, 0⟩) t.c
        (getObstaclesWithinRadius gs my (my.geometry.headD ⟨0, 0, 0⟩) st.max_search_depth)
        gs.map_size st.max_search_depth = some path) :
    (decideMove choose st gs my).2.current_target = some t ∧
    (decideMove choose st gs my).1 =
      getDirectionFromPath (my.geometry.headD ⟨0, 0, 0⟩) path := by
  rw [decideMove_keeps hstrat hct hdist hpath]
  exact ⟨hct, rfl⟩

theorem c1_stale_target_followed_witness :
    (decideMove chooseFirst stC1 gsC1 snakeC1).2.current_target =
      some ⟨⟨2, 0, 0⟩, 1⟩ ∧
    (decideMove chooseFirst stC1 gsC1 snakeC1).1 =
      getDirectionFromPath ⟨0, 0, 0⟩ [⟨0, 0, 0⟩, ⟨1, 0, 0⟩, ⟨2, 0, 0⟩] :=
  c1_stale_target_followed chooseFirst stC1 gsC1 snakeC1 ⟨⟨2, 0, 0⟩, 1⟩
    [⟨0, 0, 0⟩, ⟨1, 0, 0⟩, ⟨2, 0, 0⟩] rfl rfl (by simp [gsC1]) (by decide) (by decide)

/- C3: optimality of the depth-bounded A*. First, path surgery lemmas. -/

lemma manhattanDistance_triangle (a b c : Point3D) :
    manhattanDistance a c ≤ manhattanDistance a b + manhattanDistance b c := by
  simp only [manhattanDistance]
  omega

lemma chain'_manhattan_le :
    ∀ (l : List Point3D) (a b : Point3D),
      List.Chain' (fun x y => manhattanDistance x y = 1) l →
      l.head? = some a → l.getLast? = some b →
      manhattanDistance a b ≤ l.length - 1 := by
  intro l
  induction l with
  | nil => intro a b _ ha _; simp at ha
  | cons x t ih =>
    intro a b hc ha hb
    obtain rfl : a = x := by simpa using ha.symm
    cases t with
    | nil =>
      obtain rfl : a = b := by simpa using hb
      simp [manhattanDistance_self]
    | cons y t2 =>
      have h1 : manhattanDistance a y = 1 := (List.chain'_cons.1 hc).1
      have h2 := ih y b (List.chain'_cons.1 hc).2 rfl (by simpa using hb)
      have h3 := manhattanDistance_triangle a y b
      simp only [List.length_cons] at h2 ⊢
      omega

lemma validPath_length_lb {start goal : Point3D} {obst : Finset Point3D}
    {ms : MapSize} {q : List Point3D} (h : ValidPath start goal obst ms q) :
    manhattanDistance start goal + 1 ≤ q.length := by
  obtain ⟨h1, h2, h3, _⟩ := h
  have hne : q ≠ [] := by
    intro he
    rw [he] at h1
    simp at h1
  have := chain'_manhattan_le q start goal h3 h1 h2
  have hlen : 1 ≤ q.length := List.length_pos.2 hne
  omega

/-- i-th cell of a path (with a default that is never used at indexes
within the path). -/
def pElem (P : List Point3D) (i : Nat) : Point3D := P.getD i ⟨0, 0, 0⟩

/-- A shortest valid path of step count L within the depth cap: the data
part (A) of claim C3 quantifies over. -/
structure ShortestWitness (start goal : Point3D) (obst : Finset Point3D)
    (ms : MapSize) (maxd L : Nat) (P : List Point3D) : Prop where
  valid : ValidPath start goal obst ms P
  len : P.length = L + 1
  shortest : ∀ q, ValidPath start goal obst ms q → L + 1 ≤ q.length
  cap : L ≤ maxd

lemma pElem_eq_get {P : List Point3D} {i : Nat} (hi : i < P.length) :
    pElem P i = P[i] := by
  simp [pElem, List.getD_eq_getElem?_getD, List.getElem?_eq_getElem hi]

lemma pElem_eq_getElem {start goal : Point3D} {obst : Finset Point3D} {ms : MapSize}
    {maxd L : Nat} {P : List Point3D}
    (W : ShortestWitness start goal obst ms maxd L P) {i : Nat} (hi : i ≤ L) :
    P[i]? = some (pElem P i) := by
  have h : i < P.length := by rw [W.len]; omega
  rw [List.getElem?_eq_getElem h, pElem_eq_get h]

lemma pElem_zero {start goal : Point3D} {obst : Finset Point3D} {ms : MapSize}
    {maxd L : Nat} {P : List Point3D}
    (W : ShortestWitness start goal obst ms maxd L P) : pElem P 0 = start := by
  have h := W.valid.1
  rw [List.head?_eq_getElem?] at h
  rw [pElem_eq_getElem W (Nat.zero_le L)] at h
  exact (Option.some.injEq _ _ ▸ h :)

lemma pElem_last {start goal : Point3D} {obst : Finset Point3D} {ms : MapSize}
    {maxd L : Nat} {P : List Point3D}
    (W : ShortestWitness start goal obst ms maxd L P) : pElem P L = goal := by
  have h := W.valid.2.1
  rw [List.getLast?_eq_getElem?, W.len] at h
  simp only [Nat.add_sub_cancel] at h
  rw [pElem_eq_getElem W (Nat.le_refl L)] at h
  exact (Option.some.injEq _ _ ▸ h :)

lemma witness_step {start goal : Point3D} {obst : Finset Point3D} {ms : MapSize}
    {maxd L : Nat} {P : List Point3D}
    (W : ShortestWitness start goal obst ms maxd L P) {i : Nat} (hi : i < L) :
    manhattanDistance (pElem P i) (pElem P (i + 1)) = 1 := by
  have hc := W.valid.2.2.1
  rw [List.chain'_iff_get] at hc
  have hlt : i < P.length - 1 := by rw [W.len]; omega
  have hstep := hc i hlt
  rw [List.get_eq_getElem, List.get_eq_getElem] at hstep
  rw [pElem_eq_get (by rw [W.len]; omega), pElem_eq_get (by rw [W.len]; omega)]
  exact hstep

lemma pElem_mem_tail {start goal : Point3D} {obst : Finset Point3D} {ms : MapSize}
    {maxd L : Nat} {P : List Point3D}
    (W : ShortestWitness start goal obst ms maxd L P) {i : Nat} (h1 : 1 ≤ i)
    (hiL : i ≤ L) : pElem P i ∈ P.tail := by
  obtain ⟨a, t, rfl⟩ : ∃ a t, P = a :: t := by
    cases P with
    | nil =>
      have := W.len
      simp at this
    | cons a t => exact ⟨a, t, rfl⟩
  have hlen : t.length = L := by
    have := W.len
    simpa using this
  obtain ⟨j, rfl⟩ : ∃ j, i = j + 1 := ⟨i - 1, by omega⟩
  have hj : j < t.length := by omega
  have he : pElem (a :: t) (j + 1) = t[j] := by
    rw [pElem_eq_get (by simp; omega)]
    simp
  rw [he]
  simp only [List.tail_cons]
  exact List.getElem_mem hj

lemma witness_step_free {start goal : Point3D} {obst : Finset Point3D} {ms : MapSize}
    {maxd L : Nat} {P : List Point3D}
    (W : ShortestWitness start goal obst ms maxd L P) {i : Nat} (h1 : 1 ≤ i)
    (hiL : i ≤ L) :
    pElem P i ∉ obst ∧ inBounds (pElem P i) ms = true :=
  W.valid.2.2.2 _ (pElem_mem_tail W h1 hiL)

lemma prefix_valid {start goal : Point3D} {obst : Finset Point3D} {ms : MapSize}
    {maxd L : Nat} {P : List Point3D}
    (W : ShortestWitness start goal obst ms maxd L P) {i : Nat} (hi : i ≤ L) :
    ValidPath start (pElem P i) obst ms (P.take (i + 1)) ∧
    (P.take (i + 1)).length = i + 1 := by
  have hlen : (P.take (i + 1)).length = i + 1 := by
    rw [List.length_take, W.len]
    omega
  refine ⟨⟨?_, ?_, ?_, ?_⟩, hlen⟩
  · rw [List.head?_eq_getElem?, List.getElem?_take, if_pos (Nat.succ_pos i),
      ← List.head?_eq_getElem?]
    exact W.valid.1
  · rw [List.getLast?_eq_getElem?, hlen]
    simp only [Nat.add_sub_cancel]
    rw [List.getElem?_take, if_pos (Nat.lt_succ_self i)]
    exact pElem_eq_getElem W hi
  · have hpre : P.take (i + 1) <+: P := List.take_prefix _ _
    exact List.Chain'.prefix W.valid.2.2.1 hpre
  · intro c hc
    apply W.valid.2.2.2
    obtain ⟨a, t, rfl⟩ : ∃ a t, P = a :: t := by
      cases P with
      | nil =>
        have := W.len
        simp at this
      | cons a t => exact ⟨a, t, rfl⟩
    simp only [List.take_succ_cons, List.tail_cons] at hc
    simp only [List.tail_cons]
    exact List.mem_of_mem_take hc

lemma splice_valid {start goal : Point3D} {obst : Finset Point3D} {ms : MapSize}
    {maxd L : Nat} {P : List Point3D}
    (W : ShortestWitness start goal obst ms maxd L P) {i : Nat} (hi : i < L)
    {q : List Point3D} (hq : ValidPath start (pElem P i) obst ms q) :
    ValidPath start goal obst ms (q ++ P.drop (i + 1)) ∧
    (q ++ P.drop (i + 1)).length = q.length + (L - i) := by
  have hlen : (P.drop (i + 1)).length = L - i := by
    rw [List.length_drop, W.len]
    omega
  have hqne : q ≠ [] := by
    intro he
    rw [he] at hq
    exact absurd hq.1 (by simp)
  refine ⟨⟨?_, ?_, ?_, ?_⟩, by rw [List.length_append, hlen]⟩
  · obtain ⟨a, t, rfl⟩ : ∃ a t, q = a :: t := by
      cases q with
      | nil => exact absurd rfl hqne
      | cons a t => exact ⟨a, t, rfl⟩
    simpa using hq.1
  · rw [List.getLast?_eq_getElem?, List.length_append, hlen, List.getElem?_append_right
      (by omega), List.getElem?_drop]
    have he : i + 1 + (q.length + (L - i) - 1 - q.length) = L := by omega
    rw [he, pElem_eq_getElem W (Nat.le_refl L), pElem_last W]
  · rw [List.chain'_append]
    refine ⟨hq.2.2.1, W.valid.2.2.1.suffix (List.drop_suffix _ _), ?_⟩
    intro x hx y hy
    rw [hq.2.1] at hx
    have hx2 : x = pElem P i := by simpa using hx.symm
    rw [List.head?_drop, pElem_eq_getElem W (by omega)] at hy
    have hy2 : y = pElem P (i + 1) := by simpa using hy.symm
    rw [hx2, hy2]
    exact witness_step W hi
  · intro c hc
    obtain ⟨a, t, rfl⟩ : ∃ a t, q = a :: t := by
      cases q with
      | nil => exact absurd rfl hqne
      | cons a t => exact ⟨a, t, rfl⟩
    simp only [List.cons_append, List.tail_cons] at hc
    rcases List.mem_append.1 hc with h | h
    · exact hq.2.2.2 c (by simpa using h)
    · apply W.valid.2.2.2
      obtain ⟨b, t2, rfl⟩ : ∃ b t2, P = b :: t2 := by
        cases P with
        | nil =>
          have := W.len
          simp at this
        | cons b t2 => exact ⟨b, t2, rfl⟩
      rw [List.drop_succ_cons] at h
      simp only [List.tail_cons]
      exact List.mem_of_mem_drop h

lemma prefix_min {start goal : Point3D} {obst : Finset Point3D} {ms : MapSize}
    {maxd L : Nat} {P : List Point3D}
    (W : ShortestWitness start goal obst ms maxd L P) {i : Nat} (hi : i ≤ L) :
    ∀ q, ValidPath start (pElem P i) obst ms q → i + 1 ≤ q.length := by
  intro q hq
  by_cases hiL : i = L
  · subst hiL
    rw [pElem_last W] at hq
    have := W.shortest q hq
    omega
  · have hlt : i < L := by omega
    obtain ⟨hv, hlen⟩ := splice_valid W hlt hq
    have := W.shortest _ hv
    rw [hlen] at this
    omega

lemma suffix_manhattan {start goal : Point3D} {obst : Finset Point3D} {ms : MapSize}
    {maxd L : Nat} {P : List Point3D}
    (W : ShortestWitness start goal obst ms maxd L P) {j : Nat} (hj : j ≤ L) :
    manhattanDistance (pElem P j) goal ≤ L - j := by
  have hchain := W.valid.2.2.1.suffix (List.drop_suffix j P)
  have hhead : (P.drop j).head? = some (pElem P j) := by
    rw [List.head?_drop]
    exact pElem_eq_getElem W hj
  have hlast : (P.drop j).getLast? = some goal := by
    rw [List.getLast?_eq_getElem?, List.length_drop, W.len, List.getElem?_drop]
    have he : j + (L + 1 - j - 1) = L := by omega
    rw [he, pElem_eq_getElem W (Nat.le_refl L), pElem_last W]
  have := chain'_manhattan_le (P.drop j) _ goal hchain hhead hlast
  rw [List.length_drop, W.len] at this
  omega

lemma g_lb_at_path {start goal : Point3D} {obst : Finset Point3D} {ms : MapSize}
    {maxd L : Nat} {P : List Point3D} {st : AStarState}
    (inv : SearchInv start goal obst ms maxd st)
    (W : ShortestWitness start goal obst ms maxd L P) {i v : Nat} (hi : i ≤ L)
    (hg : st.gScore (pElem P i) = some v) : i ≤ v := by
  obtain ⟨p2, hp2, hlen⟩ := searchInv_path inv v _ hg
  have := prefix_min W hi p2 hp2
  omega

/- Termination measure: open-set length plus summed g_score slack over
the (finite) cell grid. Each loop iteration strictly decreases it. -/

def cellFinset (ms : MapSize) : Finset Point3D :=
  ((Finset.Icc (0 : Int) (ms.sx - 1)) ×ˢ (Finset.Icc (0 : Int) (ms.sy - 1)) ×ˢ
    (Finset.Icc (0 : Int) (ms.sz - 1))).image (fun v => ⟨v.1, v.2.1, v.2.2⟩)

lemma mem_cellFinset {p : Point3D} {ms : MapSize} :
    p ∈ cellFinset ms ↔ inBounds p ms = true := by
  constructor
  · intro h
    simp only [cellFinset, Finset.mem_image, Finset.mem_product, Finset.mem_Icc] at h
    obtain ⟨v, hv, rfl⟩ := h
    simp only [inBounds, Bool.and_eq_true, decide_eq_true_eq]
    omega
  · intro h
    simp only [inBounds, Bool.and_eq_true, decide_eq_true_eq] at h
    simp only [cellFinset, Finset.mem_image, Finset.mem_product, Finset.mem_Icc]
    refine ⟨(p.x, p.y, p.z), ?_, rfl⟩
    dsimp only
    omega

lemma card_cellFinset (ms : MapSize) : (cellFinset ms).card ≤ numCells ms := by
  calc (cellFinset ms).card
      ≤ _ := Finset.card_image_le
    _ ≤ numCells ms := by
        rw [Finset.card_product, Finset.card_product, Int.card_Icc, Int.card_Icc,
          Int.card_Icc, numCells]
        have e1 : (ms.sx - 1 + 1 - 0).toNat = ms.sx.toNat := by omega
        have e2 : (ms.sy - 1 + 1 - 0).toNat = ms.sy.toNat := by omega
        have e3 : (ms.sz - 1 + 1 - 0).toNat = ms.sz.toNat := by omega
        rw [e1, e2, e3, Nat.mul_assoc]

def gSlack (maxd : Nat) (g : Point3D → Option Nat) (c : Point3D) : Nat :=
  (g c).getD (maxd + 1)

def measureQ (ms : MapSize) (maxd : Nat) (st : AStarState) : Nat :=
  st.openSet.length + ∑ c ∈ cellFinset ms, gSlack maxd st.gScore c

lemma relaxNeighbor_measure {goal : Point3D} {obst : Finset Point3D} {ms : MapSize}
    {maxd : Nat} {cur nb : Point3D} {gcur : Nat} {st : AStarState}
    (hlt : gcur < maxd) (hin : inBounds nb ms = true)
    (hcap : ∀ (n : Point3D) (d : Nat), st.gScore n = some d → d ≤ maxd) :
    measureQ ms maxd (relaxNeighbor goal obst maxd cur gcur st nb) ≤
      measureQ ms maxd st := by
  rcases relaxNeighbor_shape goal obst maxd cur nb gcur st hlt with heq | ⟨_, himp, heq⟩
  · rw [heq]
  · rw [heq]
    have hb : nb ∈ cellFinset ms := mem_cellFinset.2 hin
    have hold : gcur + 2 ≤ gSlack maxd st.gScore nb := by
      rcases himp with hnone | ⟨old, hsome, hgt⟩
      · simp [gSlack, hnone]
        omega
      · simp [gSlack, hsome]
        omega
    have hsums : ∀ (g1 g2 : Point3D → Option Nat),
        (∀ c, c ≠ nb → g1 c = g2 c) →
        ∑ c ∈ (cellFinset ms).erase nb, gSlack maxd g1 c =
          ∑ c ∈ (cellFinset ms).erase nb, gSlack maxd g2 c := by
      intro g1 g2 hgs
      refine Finset.sum_congr rfl ?_
      intro c hc
      rw [Finset.mem_erase] at hc
      simp [gSlack, hgs c hc.1]
    have hnew : ∑ c ∈ cellFinset ms, gSlack maxd (setG st.gScore nb (gcur + 1)) c =
        (gcur + 1) + ∑ c ∈ (cellFinset ms).erase nb, gSlack maxd st.gScore c := by
      rw [← Finset.add_sum_erase _ _ hb]
      congr 1
      · simp [gSlack, setG]
      · exact hsums _ _ (fun c hc => by simp [setG, hc])
    have hold2 : ∑ c ∈ cellFinset ms, gSlack maxd st.gScore c =
        gSlack maxd st.gScore nb + ∑ c ∈ (cellFinset ms).erase nb, gSlack maxd st.gScore c :=
      (Finset.add_sum_erase _ _ hb).symm
    simp only [measureQ, List.length_cons]
    omega

lemma foldRelax_measure {goal : Point3D} {obst : Finset Point3D} {ms : MapSize}
    {maxd : Nat} {start : Point3D} {cur : Point3D} {gcur : Nat}
    (hlt : gcur < maxd) :
    ∀ (l : List Point3D) (st : AStarState),
      (∀ nb ∈ l, manhattanDistance cur nb = 1 ∧ inBounds nb ms = true) →
      SearchInv start goal obst ms maxd st → st.gScore cur = some gcur →
      measureQ ms maxd (l.foldl (relaxNeighbor goal obst maxd cur gcur) st) ≤
        measureQ ms maxd st := by
  intro l
  induction l with
  | nil => exact fun st _ _ _ => Nat.le_refl _
  | cons a t ih =>
    intro st hl inv hcur
    obtain ⟨ha1, ha2⟩ := hl a (List.mem_cons_self a t)
    have inv2 := relaxNeighbor_inv inv hcur hlt ha1 ha2
    have hcur2 : (relaxNeighbor goal obst maxd cur gcur st a).gScore cur = some gcur := by
      rw [relaxNeighbor_gScore_other goal obst maxd cur gcur st a cur
        (ne_of_manhattan_one ha1)]
      exact hcur
    have h1 := ih (relaxNeighbor goal obst maxd cur gcur st a)
      (fun nb hnb => hl nb (List.mem_cons_of_mem a hnb)) inv2 hcur2
    have h2 := @relaxNeighbor_measure goal obst ms maxd cur a gcur st hlt ha2 inv.gCap
    simp only [List.foldl_cons]
    omega

lemma expandNode_measure {goal : Point3D} {obst : Finset Point3D} {ms : MapSize}
    {maxd : Nat} {start : Point3D} {cur : Point3D} {gcur : Nat} {st : AStarState}
    (inv : SearchInv start goal obst ms maxd st) (hcur : st.gScore cur = some gcur)
    (hlt : gcur < maxd) :
    measureQ ms maxd (expandNode goal obst ms maxd cur gcur st) ≤
      measureQ ms maxd st :=
  foldRelax_measure hlt (getNeighbors cur ms) st
    (fun nb hnb => getNeighbors_sound hnb) inv hcur

lemma measureQ_init_lt (start : Point3D) (ms : MapSize) (maxd : Nat) :
    measureQ ms maxd (aStarInit start) < aStarFuel ms maxd := by
  have hsum : ∑ c ∈ cellFinset ms, gSlack maxd (aStarInit start).gScore c ≤
      (cellFinset ms).card * (maxd + 1) := by
    have := Finset.sum_le_card_nsmul (cellFinset ms)
      (gSlack maxd (aStarInit start).gScore) (maxd + 1)
      (fun c _ => by
        simp only [gSlack, aStarInit]
        split <;> simp)
    simpa [smul_eq_mul] using this
  have hcard := card_cellFinset ms
  have hprod : (cellFinset ms).card * (maxd + 1) ≤ numCells ms * (maxd + 1) :=
    Nat.mul_le_mul_right _ hcard
  have hexp : aStarFuel ms maxd = numCells ms * (maxd + 1) + (numCells ms + 2 * maxd + 4) := by
    simp only [aStarFuel]
    ring
  have hlen : (aStarInit start).openSet.length = 1 := rfl
  unfold measureQ
  rw [hlen]
  omega

/- Frontier invariant: along the fixed shortest path, some settled node
keeps a cheap-enough open-set entry (or its successor is settled). -/

def ExactQ (goal : Point3D) (P : List Point3D) (st : AStarState) (i : Nat) : Prop :=
  ∃ f, f ≤ i + manhattanDistance (pElem P i) goal ∧ (f, pElem P i) ∈ st.openSet

def FrontInv (goal : Point3D) (P : List Point3D) (L : Nat) (st : AStarState) : Prop :=
  (∀ i, i < L → st.gScore (pElem P i) = some i →
    ExactQ goal P st i ∨ st.gScore (pElem P (i + 1)) = some (i + 1)) ∧
  (st.gScore (pElem P L) = some L → ExactQ goal P st L)

lemma entryLe_fst_le {a b : Nat × Point3D} (h : entryLe a b = true) : a.1 ≤ b.1 := by
  simp only [entryLe, decide_eq_true_eq] at h
  omega

lemma front_init {start goal : Point3D} {obst : Finset Point3D} {ms : MapSize}
    {maxd L : Nat} {P : List Point3D}
    (W : ShortestWitness start goal obst ms maxd L P) :
    FrontInv goal P L (aStarInit start) := by
  constructor
  · intro i hi hg
    left
    by_cases hp : pElem P i = start
    · exact ⟨0, Nat.zero_le _, by rw [hp]; exact List.mem_cons_self _ _⟩
    · simp [aStarInit, hp] at hg
  · intro hg
    by_cases hp : pElem P L = start
    · exact ⟨0, Nat.zero_le _, by rw [hp]; exact List.mem_cons_self _ _⟩
    · simp [aStarInit, hp] at hg

lemma front_exists {start goal : Point3D} {obst : Finset Point3D} {ms : MapSize}
    {maxd L : Nat} {P : List Point3D} {st : AStarState}
    (inv : SearchInv start goal obst ms maxd st)
    (W : ShortestWitness start goal obst ms maxd L P)
    (hfr : FrontInv goal P L st) :
    ∃ j, j ≤ L ∧ st.gScore (pElem P j) = some j ∧ ExactQ goal P st j := by
  have h0 : st.gScore (pElem P 0) = some 0 := by
    rw [pElem_zero W]
    exact inv.gStart
  suffices haux : ∀ k i, i ≤ L → L - i ≤ k → st.gScore (pElem P i) = some i →
      ∃ j, j ≤ L ∧ st.gScore (pElem P j) = some j ∧ ExactQ goal P st j by
    exact haux L 0 (Nat.zero_le L) (by omega) h0
  intro k
  induction k with
  | zero =>
    intro i hi hk hg
    have hiL : i = L := by omega
    subst hiL
    exact ⟨i, Nat.le_refl i, hg, hfr.2 hg⟩
  | succ k ih =>
    intro i hi hk hg
    by_cases hiL : i = L
    · subst hiL
      exact ⟨i, Nat.le_refl i, hg, hfr.2 hg⟩
    · rcases hfr.1 i (by omega) hg with hex | hnext
      · exact ⟨i, hi, hg, hex⟩
      · exact ih (i + 1) (by omega) (by omega) hnext

/- Per-relaxation preservation facts. -/

lemma relax_g_mono {goal : Point3D} {obst : Finset Point3D} {maxd : Nat}
    {cur nb : Point3D} {gcur : Nat} {st : AStarState} (hlt : gcur < maxd)
    {m : Point3D} {d : Nat} (h : st.gScore m = some d) :
    ∃ d2, (relaxNeighbor goal obst maxd cur gcur st nb).gScore m = some d2 ∧ d2 ≤ d := by
  rcases relaxNeighbor_shape goal obst maxd cur nb gcur st hlt with heq | ⟨_, himp, heq⟩
  · exact ⟨d, by rw [heq]; exact h, Nat.le_refl d⟩
  · rw [heq]
    by_cases hm : m = nb
    · subst hm
      rcases himp with hnone | ⟨old, hsome, hgt⟩
      · rw [h] at hnone
        exact absurd hnone (by simp)
      · rw [h] at hsome
        obtain rfl : d = old := by simpa using hsome
        exact ⟨gcur + 1, by simp [setG], by omega⟩
    · exact ⟨d, by simpa [setG, hm] using h, Nat.le_refl d⟩

lemma relax_self_le {goal : Point3D} {obst : Finset Point3D} {maxd : Nat}
    {cur nb : Point3D} {gcur : Nat} {st : AStarState} (hlt : gcur < maxd)
    (hnb : nb ∉ obst) :
    ∃ d, (relaxNeighbor goal obst maxd cur gcur st nb).gScore nb = some d ∧
      d ≤ gcur + 1 := by
  unfold relaxNeighbor
  rw [if_neg hnb]
  have hle : gcur + 1 ≤ maxd := hlt
  cases hg : st.gScore nb with
  | none =>
    simp [hg, hle, setG]
  | some old =>
    by_cases himp : gcur + 1 < old
    · simp [hg, himp, hle, setG]
    · simp only [hg, himp, decide_eq_true_eq, if_neg, if_false]
      refine ⟨old, ?_, by omega⟩
      simp [himp, hg]

lemma relax_openSet_mono {goal : Point3D} {obst : Finset Point3D} {maxd : Nat}
    {cur nb : Point3D} {gcur : Nat} {st : AStarState} (hlt : gcur < maxd)
    {e : Nat × Point3D} (h : e ∈ st.openSet) :
    e ∈ (relaxNeighbor goal obst maxd cur gcur st nb).openSet := by
  rcases relaxNeighbor_shape goal obst maxd cur nb gcur st hlt with heq | ⟨_, _, heq⟩
  · rw [heq]
    exact h
  · rw [heq]
    exact List.mem_cons_of_mem _ h

lemma relax_keeps_g_path {start goal : Point3D} {obst : Finset Point3D} {ms : MapSize}
    {maxd L : Nat} {P : List Point3D} {st : AStarState} {cur nb : Point3D} {gcur : Nat}
    (inv : SearchInv start goal obst ms maxd st)
    (W : ShortestWitness start goal obst ms maxd L P)
    (hcur : st.gScore cur = some gcur) (hlt : gcur < maxd)
    (hstep : manhattanDistance cur nb = 1) (hin : inBounds nb ms = true)
    {k : Nat} (hk : k ≤ L) (hg : st.gScore (pElem P k) = some k) :
    (relaxNeighbor goal obst maxd cur gcur st nb).gScore (pElem P k) = some k := by
  rcases relaxNeighbor_shape goal obst maxd cur nb gcur st hlt with heq | ⟨hobst, himp, heq⟩
  · rw [heq]
    exact hg
  · rw [heq]
    by_cases hm : pElem P k = nb
    · exfalso
      -- an improving relaxation into a path node below its index is impossible
      rw [← hm] at himp
      rcases himp with hnone | ⟨old, hsome, hgt⟩
      · rw [hg] at hnone
        exact absurd hnone (by simp)
      · rw [hg] at hsome
        obtain rfl : k = old := by simpa using hsome
        -- gcur + 1 < k, but soundness gives a path to nb of ≤ gcur + 2 cells
        obtain ⟨q, hq, hql⟩ := searchInv_path inv gcur cur hcur
        have hvnb : ValidPath start (pElem P k) obst ms (q ++ [pElem P k]) := by
          rw [hm]
          exact validPath_snoc hq hstep hin hobst
        have := prefix_min W hk _ hvnb
        rw [List.length_append, List.length_singleton] at this
        omega
    · simp only [setG]
      rw [if_neg hm]
      exact hg

lemma relax_new_exact {goal : Point3D} {obst : Finset Point3D} {maxd : Nat}
    {P : List Point3D} {cur nb : Point3D} {gcur : Nat} {st : AStarState}
    (hlt : gcur < maxd) {k : Nat}
    (h : (relaxNeighbor goal obst maxd cur gcur st nb).gScore (pElem P k) = some k) :
    st.gScore (pElem P k) = some k ∨
      ExactQ goal P (relaxNeighbor goal obst maxd cur gcur st nb) k := by
  rcases relaxNeighbor_shape goal obst maxd cur nb gcur st hlt with heq | ⟨_, _, heq⟩
  · rw [heq] at h
    exact Or.inl h
  · by_cases hm : pElem P k = nb
    · right
      rw [heq] at h
      simp only [setG, if_pos hm] at h
      obtain hke : gcur + 1 = k := by simpa using h
      refine ⟨k + manhattanDistance (pElem P k) goal, Nat.le_refl _, ?_⟩
      rw [heq]
      rw [hm]
      rw [← hke]
      exact List.mem_cons_self _ _
    · left
      rw [heq] at h
      simpa [setG, hm] using h

/- Fold-level versions over the neighbor list. -/

lemma fold_g_mono {goal : Point3D} {obst : Finset Point3D} {maxd : Nat}
    {cur : Point3D} {gcur : Nat} (hlt : gcur < maxd) :
    ∀ (l : List Point3D) (st : AStarState) (m : Point3D) (d : Nat),
      st.gScore m = some d →
      ∃ d2, (l.foldl (relaxNeighbor goal obst maxd cur gcur) st).gScore m = some d2 ∧
        d2 ≤ d := by
  intro l
  induction l with
  | nil => exact fun st m d h => ⟨d, h, Nat.le_refl d⟩
  | cons a t ih =>
    intro st m d h
    obtain ⟨d2, h2, hle2⟩ := @relax_g_mono goal obst maxd cur a gcur st hlt m d h
    obtain ⟨d3, h3, hle3⟩ := ih _ m d2 h2
    exact ⟨d3, by simpa using h3, by omega⟩

lemma fold_exact_mono {goal : Point3D} {obst : Finset Point3D} {maxd : Nat}
    {P : List Point3D} {cur : Point3D} {gcur : Nat} (hlt : gcur < maxd) {k : Nat} :
    ∀ (l : List Point3D) (st : AStarState),
      ExactQ goal P st k →
      ExactQ goal P (l.foldl (relaxNeighbor goal obst maxd cur gcur) st) k := by
  intro l
  induction l with
  | nil => exact fun st h => h
  | cons a t ih =>
    intro st h
    obtain ⟨f, hf, hmem⟩ := h
    exact ih _ ⟨f, hf, relax_openSet_mono hlt hmem⟩

lemma fold_keeps_g_path {start goal : Point3D} {obst : Finset Point3D} {ms : MapSize}
    {maxd L : Nat} {P : List Point3D} {cur : Point3D} {gcur : Nat}
    (W : ShortestWitness start goal obst ms maxd L P) (hlt : gcur < maxd)
    {k : Nat} (hk : k ≤ L) :
    ∀ (l : List Point3D) (st : AStarState),
      (∀ nb ∈ l, manhattanDistance cur nb = 1 ∧ inBounds nb ms = true) →
      SearchInv start goal obst ms maxd st → st.gScore cur = some gcur →
      st.gScore (pElem P k) = some k →
      (l.foldl (relaxNeighbor goal obst maxd cur gcur) st).gScore (pElem P k) = some k := by
  intro l
  induction l with
  | nil => exact fun st _ _ _ h => h
  | cons a t ih =>
    intro st hl inv hcur hg
    obtain ⟨ha1, ha2⟩ := hl a (List.mem_cons_self a t)
    have inv2 := relaxNeighbor_inv inv hcur hlt ha1 ha2
    have hcur2 : (relaxNeighbor goal obst maxd cur gcur st a).gScore cur = some gcur := by
      rw [relaxNeighbor_gScore_other goal obst maxd cur gcur st a cur
        (ne_of_manhattan_one ha1)]
      exact hcur
    have hg2 := relax_keeps_g_path inv W hcur hlt ha1 ha2 hk hg
    exact ih _ (fun nb hnb => hl nb (List.mem_cons_of_mem a hnb)) inv2 hcur2 hg2

lemma fold_new_exact {goal : Point3D} {obst : Finset Point3D} {maxd : Nat}
    {P : List Point3D} {cur : Point3D} {gcur : Nat} (hlt : gcur < maxd) {k : Nat} :
    ∀ (l : List Point3D) (st : AStarState),
      (l.foldl (relaxNeighbor goal obst maxd cur gcur) st).gScore (pElem P k) = some k →
      st.gScore (pElem P k) = some k ∨
        ExactQ goal P (l.foldl (relaxNeighbor goal obst maxd cur gcur) st) k := by
  intro l
  induction l with
  | nil => exact fun st h => Or.inl h
  | cons a t ih =>
    intro st h
    simp only [List.foldl_cons] at h ⊢
    rcases ih _ h with h2 | h2
    · rcases relax_new_exact hlt h2 with h3 | h3
      · exact Or.inl h3
      · exact Or.inr (fold_exact_mono hlt t _ h3)
    · exact Or.inr h2

lemma fold_relaxed_le {goal : Point3D} {obst : Finset Point3D} {maxd : Nat}
    {cur : Point3D} {gcur : Nat} (hlt : gcur < maxd) {m : Point3D} (hm : m ∉ obst) :
    ∀ (l : List Point3D) (st : AStarState), m ∈ l →
      ∃ d, (l.foldl (relaxNeighbor goal obst maxd cur gcur) st).gScore m = some d ∧
        d ≤ gcur + 1 := by
  intro l
  induction l with
  | nil =>
    intro st h
    exact absurd h (List.not_mem_nil m)
  | cons a t ih =>
    intro st h
    simp only [List.foldl_cons]
    rcases List.mem_cons.1 h with rfl | h2
    · by_cases ht : m ∈ t
      · exact ih _ ht
      · obtain ⟨d, hd, hdle⟩ := @relax_self_le goal obst maxd cur m gcur st hlt hm
        obtain ⟨d2, hd2, hdle2⟩ := fold_g_mono hlt t _ m d hd
        exact ⟨d2, hd2, by omega⟩
    · exact ih _ h2

lemma front_skip {start goal : Point3D} {obst : Finset Point3D} {ms : MapSize}
    {maxd L : Nat} {P : List Point3D} {st : AStarState} {e : Nat × Point3D}
    {rest : List (Nat × Point3D)} {gcur : Nat}
    (W : ShortestWitness start goal obst ms maxd L P)
    (hfr : FrontInv goal P L st) (hpop : popMin st.openSet = some (e, rest))
    (hg : st.gScore e.2 = some gcur) (hgoal : e.2 ≠ goal) (hd : maxd ≤ gcur) :
    FrontInv goal P L { st with openSet := rest } := by
  obtain ⟨hemem, hrest, hmin⟩ := popMin_spec hpop
  constructor
  · intro i hi hgi
    rcases hfr.1 i hi hgi with ⟨f, hf, hmem⟩ | hnext
    · left
      by_cases he : (f, pElem P i) = e
      · exfalso
        rw [← he] at hg
        rw [hgi] at hg
        obtain rfl : gcur = i := by simpa using hg.symm
        have := W.cap
        omega
      · exact ⟨f, hf, by
          rw [hrest]
          exact (List.mem_erase_of_ne he).2 hmem⟩
    · exact Or.inr hnext
  · intro hgL
    obtain ⟨f, hf, hmem⟩ := hfr.2 hgL
    by_cases he : (f, pElem P L) = e
    · exfalso
      apply hgoal
      rw [← he, pElem_last W]
    · exact ⟨f, hf, by
        rw [hrest]
        exact (List.mem_erase_of_ne he).2 hmem⟩

lemma front_expand {start goal : Point3D} {obst : Finset Point3D} {ms : MapSize}
    {maxd L : Nat} {P : List Point3D} {st : AStarState} {e : Nat × Point3D}
    {rest : List (Nat × Point3D)} {gcur : Nat}
    (inv : SearchInv start goal obst ms maxd st)
    (W : ShortestWitness start goal obst ms maxd L P)
    (hfr : FrontInv goal P L st) (hpop : popMin st.openSet = some (e, rest))
    (hg : st.gScore e.2 = some gcur) (hgoal : e.2 ≠ goal) (hd : gcur < maxd) :
    FrontInv goal P L
      (expandNode goal obst ms maxd e.2 gcur { st with openSet := rest }) := by
  obtain ⟨hemem, hrest, hmin⟩ := popMin_spec hpop
  have hsub : ∀ x ∈ rest, x ∈ st.openSet := fun x hx => by
    rw [hrest] at hx
    exact List.mem_of_mem_erase hx
  have inv1 : SearchInv start goal obst ms maxd { st with openSet := rest } :=
    searchInv_set_openSet inv rest hsub
  have hcur1 : ({ st with openSet := rest } : AStarState).gScore e.2 = some gcur := hg
  have hnbs : ∀ nb ∈ getNeighbors e.2 ms,
      manhattanDistance e.2 nb = 1 ∧ inBounds nb ms = true :=
    fun nb hnb => getNeighbors_sound hnb
  unfold expandNode
  constructor
  · intro i hi hgi
    rcases fold_new_exact hd (getNeighbors e.2 ms) _ hgi with h2 | h2
    · rcases hfr.1 i hi h2 with ⟨f, hf, hmem⟩ | hnext
      · by_cases he : (f, pElem P i) = e
        · right
          have hcur_pi : e.2 = pElem P i := by rw [← he]
          have hgi2 : gcur = i := by
            rw [hcur_pi] at hg
            rw [h2] at hg
            simpa using hg.symm
          have hstep := witness_step W hi
          have hfree := witness_step_free W (show 1 ≤ i + 1 by omega)
            (show i + 1 ≤ L by omega)
          have hnbmem : pElem P (i + 1) ∈ getNeighbors e.2 ms := by
            rw [hcur_pi]
            exact getNeighbors_complete hstep hfree.2
          obtain ⟨d, hdg, hdle⟩ :=
            fold_relaxed_le hd hfree.1 (getNeighbors e.2 ms)
              { st with openSet := rest } hnbmem
          have inv2 := expandNode_inv inv1 hcur1 hd
          have hlb := g_lb_at_path (by unfold expandNode at inv2; exact inv2) W
            (show i + 1 ≤ L by omega) hdg
          have hde : d = i + 1 := by omega
          rw [hde] at hdg
          exact hdg
        · left
          have hmem1 : (f, pElem P i) ∈ rest := by
            rw [hrest]
            exact (List.mem_erase_of_ne he).2 hmem
          exact fold_exact_mono hd _ _ ⟨f, hf, hmem1⟩
      · right
        exact fold_keeps_g_path W hd (show i + 1 ≤ L by omega) _ _ hnbs inv1 hcur1 hnext
    · exact Or.inl h2
  · intro hgL
    rcases fold_new_exact hd (getNeighbors e.2 ms) _ hgL with h2 | h2
    · obtain ⟨f, hf, hmem⟩ := hfr.2 h2
      by_cases he : (f, pElem P L) = e
      · exfalso
        apply hgoal
        rw [← he, pElem_last W]
      · have hmem1 : (f, pElem P L) ∈ rest := by
          rw [hrest]
          exact (List.mem_erase_of_ne he).2 hmem
        exact fold_exact_mono hd _ _ ⟨f, hf, hmem1⟩
    · exact h2

lemma aStarLoop_complete {start goal : Point3D} {obst : Finset Point3D} {ms : MapSize}
    {maxd L : Nat} {P : List Point3D}
    (W : ShortestWitness start goal obst ms maxd L P) :
    ∀ (fuel : Nat) (st : AStarState),
      SearchInv start goal obst ms maxd st → FrontInv goal P L st →
      measureQ ms maxd st < fuel →
      ∃ p, aStarLoop goal obst ms maxd fuel st = some (some p) ∧
        p.length = L + 1 := by
  intro fuel
  induction fuel with
  | zero =>
    intro st _ _ hm
    omega
  | succ n ih =>
    intro st inv hfr hm
    obtain ⟨j, hj, hgj, f2, hf2, hmem2⟩ := front_exists inv W hfr
    have hne : st.openSet ≠ [] := fun he => by
      rw [he] at hmem2
      exact absurd hmem2 (List.not_mem_nil _)
    obtain ⟨e, rest, hpop⟩ : ∃ e rest, popMin st.openSet = some (e, rest) := by
      cases hp : popMin st.openSet with
      | none => exact absurd (popMin_none hp) hne
      | some pr =>
        obtain ⟨a, b⟩ := pr
        exact ⟨a, b, rfl⟩
    obtain ⟨f0, cur⟩ := e
    obtain ⟨hemem, hrest, hmin⟩ := popMin_spec hpop
    obtain ⟨gcur, hgc, hgcf⟩ := inv.queueG f0 cur hemem
    have hlenpos : 0 < st.openSet.length :=
      List.length_pos.2 (List.ne_nil_of_mem hemem)
    have hlenr : rest.length = st.openSet.length - 1 := by
      rw [hrest]
      exact List.length_erase_of_mem hemem
    have hmeq : measureQ ms maxd { st with openSet := rest } + 1 = measureQ ms maxd st := by
      show rest.length + ∑ c ∈ cellFinset ms, gSlack maxd st.gScore c + 1 =
        st.openSet.length + ∑ c ∈ cellFinset ms, gSlack maxd st.gScore c
      omega
    by_cases hcg : cur = goal
    · -- the goal is popped: its g_score is exactly L
      have hgoalg : st.gScore goal = some gcur := hcg ▸ hgc
      have hfle : f0 ≤ f2 :=
        entryLe_fst_le (hmin (f2, pElem P j) hmem2)
      have hsuf : f2 ≤ L := by
        have h1 := suffix_manhattan W hj
        omega
      have hLlb : L ≤ gcur :=
        g_lb_at_path inv W (Nat.le_refl L) (by rw [pElem_last W]; exact hgoalg)
      have hgL : gcur = L := by omega
      have hspec := reconstructPath_spec inv gcur gcur goal hgoalg (Nat.le_refl gcur)
      have hlen : (reconstructPath st.cameFrom gcur goal).length = L + 1 := by
        have hge := W.shortest _ hspec.1
        omega
      refine ⟨reconstructPath st.cameFrom gcur cur, ?_, by rw [hcg]; exact hlen⟩
      simp only [aStarLoop, hpop, hgc]
      rw [if_pos hcg]
    · by_cases hd : maxd ≤ gcur
      · have inv2 := searchInv_set_openSet inv rest (fun x hx => by
          rw [hrest] at hx
          exact List.mem_of_mem_erase hx)
        have hfr2 := front_skip W hfr hpop hgc hcg hd
        obtain ⟨p, hp, hplen⟩ := ih _ inv2 hfr2 (by omega)
        refine ⟨p, ?_, hplen⟩
        simp only [aStarLoop, hpop, hgc]
        rw [if_neg hcg, if_pos hd]
        exact hp
      · have hdlt : gcur < maxd := by omega
        have inv2 := searchInv_set_openSet inv rest (fun x hx => by
          rw [hrest] at hx
          exact List.mem_of_mem_erase hx)
        have inv3 := expandNode_inv inv2 (show _ = some gcur from hgc) hdlt
        have hfr3 := front_expand inv W hfr hpop hgc hcg hdlt
        have hm3 : measureQ ms maxd
            (expandNode goal obst ms maxd cur gcur { st with openSet := rest }) < n := by
          have := expandNode_measure inv2 (show _ = some gcur from hgc) hdlt
          omega
        obtain ⟨p, hp, hplen⟩ := ih _ inv3 hfr3 hm3
        refine ⟨p, ?_, hplen⟩
        simp only [aStarLoop, hpop, hgc]
        rw [if_neg hcg, if_neg hd]
        exact hp

/-- C3: depth-bounded A* optimality. If a shortest valid path of step
count L ≤ maxDepth exists, a_star returns a path of exactly L + 1 cells
(L steps); if every valid path needs more than maxDepth steps (or none
exists), a_star returns None. -/
theorem c3_astar_optimal (start goal : Point3D) (obstacles : Finset Point3D)
    (ms : MapSize) (maxDepth : Nat) (hb : inBounds start ms = true)
    (hpos : 0 < maxDepth) :
    (∀ L, IsShortestLen start goal obstacles ms L → L ≤ maxDepth →
      ∃ p, aStar start goal obstacles ms maxDepth = some p ∧ p.length = L + 1) ∧
    ((∀ q, ValidPath start goal obstacles ms q → maxDepth + 2 ≤ q.length) →
      aStar start goal obstacles ms maxDepth = none) := by
  constructor
  · intro L hshort hcap
    obtain ⟨⟨P, hvalid, hlen⟩, hmin⟩ := hshort
    have W : ShortestWitness start goal obstacles ms maxDepth L P :=
      ⟨hvalid, hlen, hmin, hcap⟩
    obtain ⟨p, hp, hplen⟩ := aStarLoop_complete W (aStarFuel ms maxDepth)
      (aStarInit start) (searchInv_init start goal obstacles ms maxDepth)
      (front_init W) (measureQ_init_lt start ms maxDepth)
    refine ⟨p, ?_, hplen⟩
    unfold aStar
    rw [hp]
  · intro hno
    cases hres : aStar start goal obstacles ms maxDepth with
    | none => rfl
    | some p =>
      exfalso
      obtain ⟨hv, hle⟩ := aStar_sound hres
      have := hno p hv
      omega

theorem c3_astar_optimal_witness :
    (∃ p, aStar ⟨0, 0, 0⟩ ⟨2, 0, 0⟩ (∅ : Finset Point3D) ⟨3, 1, 1⟩ 4 = some p ∧
      p.length = 3) ∧
    aStar ⟨0, 0, 0⟩ ⟨2, 0, 0⟩ (∅ : Finset Point3D) ⟨3, 1, 1⟩ 1 = none := by
  have hlb : ∀ q, ValidPath ⟨0, 0, 0⟩ ⟨2, 0, 0⟩ (∅ : Finset Point3D) ⟨3, 1, 1⟩ q →
      3 ≤ q.length := by
    intro q hq
    have h1 := validPath_length_lb hq
    have h2 : manhattanDistance ⟨0, 0, 0⟩ ⟨2, 0, 0⟩ = 2 := by decide
    omega
  constructor
  · exact (c3_astar_optimal ⟨0, 0, 0⟩ ⟨2, 0, 0⟩ ∅ ⟨3, 1, 1⟩ 4 (by decide) (by decide)).1 2
      ⟨⟨[⟨0, 0, 0⟩, ⟨1, 0, 0⟩, ⟨2, 0, 0⟩],
        ⟨rfl, rfl,
          List.chain'_cons.2 ⟨by decide, List.chain'_cons.2
            ⟨by decide, List.chain'_singleton _⟩⟩,
          by decide⟩, rfl⟩, hlb⟩
      (by omega)
  · exact (c3_astar_optimal ⟨0, 0, 0⟩ ⟨2, 0, 0⟩ ∅ ⟨3, 1, 1⟩ 1 (by decide) (by decide)).2 hlb
